import Mathlib

/-!
Verification of the Lumina gapless text-to-speech playback engine
(`src/App.tsx`, `src/components/SettingsModal.tsx` utility section,
`src/constants.ts`) against its natural-language specification.

The development shallowly embeds the program:

* the audio decoder `decodeAudioData` works on the byte sequence obtained
  from base64 decoding; JavaScript strings are embedded as lists of UTF-16
  code units (`List Nat`);
* the playback engine is embedded as an executable transition system whose
  atomic steps are the synchronous segments of the source between genuine
  suspension points (a remote synthesis response, the end of a playing
  buffer, a user interaction, a timer); `await` of an already-resolved
  promise, such as the purely synchronous `decodeAudioData`, does not let a
  user event interleave in the browser event loop and is therefore part of
  the enclosing atomic segment;
* wall-clock timestamps and durations are rationals.
-/

namespace Lumina

/-! ## Audio decoder (utility section of src/components/SettingsModal.tsx) -/

/-- Failure of the decoder.  In the source the failures are raised by the
host platform: constructing an `Int16Array` over a buffer whose byte length
is not a multiple of 2 throws a `RangeError`, and `ctx.createBuffer` with a
frame count of 0 throws a `NotSupportedError`.  Both reject the promise
returned by `decodeAudioData` and surface as a decode failure. -/
inductive DecodeError
  | oddByteLength
  | emptyBuffer
deriving Repr, DecidableEq

/-- A decoded, playback-ready audio buffer: declared sample rate and the
normalized floating-point samples (exact rationals in the model). -/
structure DecodedAudio where
  sampleRate : ℕ
  samples : List ℚ
deriving Repr, DecidableEq

/-- Signed 16-bit little-endian value of the byte pair (lo, hi), as read by
`new Int16Array(bytes.buffer)` on a little-endian host. -/
def int16OfBytes (lo hi : ℕ) : ℤ :=
  if lo + 256 * hi < 32768 then ((lo + 256 * hi : ℕ) : ℤ)
  else ((lo + 256 * hi : ℕ) : ℤ) - 65536

/-- The 16-bit sample sequence of a byte list (pairs in little-endian
order); a trailing odd byte yields no sample. -/
def int16Samples : List ℕ → List ℤ
  | lo :: hi :: rest => int16OfBytes lo hi :: int16Samples rest
  | _ => []

/-- The conversion `dataInt16[i] / 32768.0` of line 112. -/
def sampleToFloat (v : ℤ) : ℚ := (v : ℚ) / 32768

/-- Shallow embedding of `decodeAudioData` (SettingsModal.tsx utility
section, lines 97 to 116) on the raw byte payload: build the `Int16Array`
view (throws on an odd byte length), allocate a buffer with one frame per
sample (throws on 0 frames), and fill it with each sample divided
by 32768. -/
def decodeAudioData (bytes : List ℕ) (sampleRate : ℕ) :
    Except DecodeError DecodedAudio :=
  if bytes.length % 2 ≠ 0 then .error .oddByteLength
  else
    let ds := int16Samples bytes
    if ds.length = 0 then .error .emptyBuffer
    else .ok ⟨sampleRate, ds.map sampleToFloat⟩

theorem int16Samples_length (bs : List ℕ) :
    (int16Samples bs).length = bs.length / 2 := by
  induction bs using int16Samples.induct with
  | case1 lo hi rest ih =>
      simp only [int16Samples, List.length_cons, ih]
      omega
  | case2 bs h =>
      match bs with
      | [] => simp [int16Samples]
      | [a] => simp [int16Samples]
      | a :: b :: rest => exact (h a b rest rfl).elim

theorem int16Samples_get? (bs : List ℕ) :
    ∀ (k lo hi : ℕ), bs.get? (2 * k) = some lo → bs.get? (2 * k + 1) = some hi →
      (int16Samples bs).get? k = some (int16OfBytes lo hi) := by
  induction bs using int16Samples.induct with
  | case1 a b rest ih =>
      intro k lo hi h1 h2
      cases k with
      | zero =>
          simp only [Nat.mul_zero, Nat.zero_add, List.get?] at h1 h2
          cases h1
          cases h2
          simp [int16Samples]
      | succ k =>
          have e1 : 2 * (k + 1) = 2 * k + 1 + 1 := by omega
          have e2 : 2 * (k + 1) + 1 = 2 * k + 1 + 1 + 1 := by omega
          rw [e1] at h1
          rw [e2] at h2
          simp only [List.get?] at h1 h2
          simpa [int16Samples] using ih k lo hi h1 h2
  | case2 bs h =>
      intro k lo hi h1 h2
      match bs with
      | [] => simp at h1
      | [a] =>
          cases k with
          | zero => simp at h2
          | succ k =>
              have e1 : 2 * (k + 1) = 2 * k + 1 + 1 := by omega
              rw [e1] at h1
              simp at h1
      | a :: b :: rest => exact (h a b rest rfl).elim

theorem int16Samples_range (bs : List ℕ) (hb : ∀ b ∈ bs, b < 256) :
    ∀ v ∈ int16Samples bs, -32768 ≤ v ∧ v < 32768 := by
  induction bs using int16Samples.induct with
  | case1 lo hi rest ih =>
      intro v hv
      simp only [int16Samples, List.mem_cons] at hv
      rcases hv with rfl | hv
      · have hlo : lo < 256 := hb lo (by simp)
        have hhi : hi < 256 := hb hi (by simp)
        unfold int16OfBytes
        split <;> omega
      · exact ih (fun b h => hb b (by simp [h])) v hv
  | case2 bs h =>
      intro v hv
      match bs with
      | [] => simp [int16Samples] at hv
      | [a] => simp [int16Samples] at hv
      | a :: b :: rest => exact (h a b rest rfl).elim

/-! ## Chunker (chunkText, src/App.tsx lines 150 to 170) -/

/-- The UTF-16 code units matched by the JavaScript `\s` character class and
stripped by `String.prototype.trim`. -/
def isJsWs (c : ℕ) : Bool :=
  c == 9 || c == 10 || c == 11 || c == 12 || c == 13 || c == 32 ||
  c == 160 || c == 0x1680 || (decide (0x2000 ≤ c) && decide (c ≤ 0x200A)) ||
  c == 0x2028 || c == 0x2029 || c == 0x202F || c == 0x205F ||
  c == 0x3000 || c == 0xFEFF

/-- `text.replace(/\r\n/g, '\n')`: rewrite every (13, 10) pair to 10,
scanning left to right without overlap. -/
def normalizeNewlines : List ℕ → List ℕ
  | 13 :: 10 :: rest => 10 :: normalizeNewlines rest
  | c :: rest => c :: normalizeNewlines rest
  | [] => []

/-- Length of the match of the regular expression newline, `\s*`, newline
at the head of `l`, if any.  Greedy matching with backtracking picks the
largest t such that the t code units after the first newline are all
whitespace and the unit after them is a newline; the match has length
t + 2. -/
def blankLineMatch (l : List ℕ) : Option ℕ :=
  match l with
  | 10 :: rest =>
      let m := (rest.takeWhile isJsWs).length
      match ((List.range m).filter (fun t => rest.get? t == some 10)).reverse with
      | t :: _ => some (t + 2)
      | [] => none
  | _ => none

theorem blankLineMatch_ge_two {l : List ℕ} {n : ℕ}
    (h : blankLineMatch l = some n) : 2 ≤ n := by
  unfold blankLineMatch at h
  split at h
  · dsimp at h
    split at h
    · cases h
      omega
    · cases h
  · cases h

/-- `String.prototype.split` with the regular expression `/\n\s*\n/`:
repeatedly look for the leftmost match, cut there, and continue after the
match; the pattern never yields a match of length 0, so the plain
JavaScript split algorithm specializes to this recursion.  An empty input
yields one empty segment, as in JavaScript.  The recursion is driven by a
fuel argument for structural recursion; every step consumes at least one
code unit, so any fuel at least the length of the list (the wrapper
`jsSplit` passes exactly that) makes the fuel-exhaustion branch
unreachable. -/
def jsSplitGo : ℕ → List ℕ → List ℕ → List (List ℕ)
  | _, acc, [] => [acc.reverse]
  | 0, acc, _ :: _ => [acc.reverse]
  | fuel + 1, acc, c :: rest =>
      match blankLineMatch (c :: rest) with
      | some n => acc.reverse :: jsSplitGo fuel [] (rest.drop (n - 1))
      | none => jsSplitGo fuel (c :: acc) rest

/-- `normalized.split(/\n\s*\n/)` (src/App.tsx line 154). -/
def jsSplit (l : List ℕ) : List (List ℕ) :=
  jsSplitGo l.length [] l

/-- `String.prototype.trim`: drop leading and trailing whitespace. -/
def jsTrim (l : List ℕ) : List ℕ :=
  (((l.dropWhile isJsWs).reverse.dropWhile isJsWs).reverse)

/-- `const maxLength = 1200` (src/App.tsx line 151). -/
def maxChunkLength : ℕ := 1200

/-- The paragraph list of `chunkText`: normalize line endings, split on
blank-line boundaries, trim each paragraph, drop the empty ones
(src/App.tsx lines 152 to 156). -/
def paragraphsOf (text : List ℕ) : List (List ℕ) :=
  ((jsSplit (normalizeNewlines text)).map jsTrim).filter
    (fun p => !p.isEmpty)

/-- The slice loop of `chunkText` (lines 164 to 166): consecutive
`p.slice(i, i + maxLength)` windows.  Fuel-driven structural recursion;
every step consumes at least one code unit, so fuel at least the length of
the paragraph (the wrapper `sliceChunks` passes exactly that) makes the
fuel-exhaustion branch unreachable. -/
def sliceChunksGo : ℕ → List ℕ → List (List ℕ)
  | _, [] => []
  | 0, _ :: _ => []
  | fuel + 1, c :: rest =>
      (c :: rest).take maxChunkLength
        :: sliceChunksGo fuel ((c :: rest).drop maxChunkLength)

def sliceChunks (p : List ℕ) : List (List ℕ) :=
  sliceChunksGo p.length p

/-- Per-paragraph behavior of the `paragraphs.forEach` body (lines 159
to 167): a paragraph within the bound is pushed whole, a longer one is
hard-split into fixed-size slices. -/
def hardSplitParagraph (p : List ℕ) : List (List ℕ) :=
  if p.length ≤ maxChunkLength then [p] else sliceChunks p

/-- Shallow embedding of `chunkText` (src/App.tsx lines 150 to 170). -/
def chunkText (text : List ℕ) : List (List ℕ) :=
  (paragraphsOf text).flatMap hardSplitParagraph

theorem sliceChunksGo_flatten : ∀ (fuel : ℕ) (p : List ℕ), p.length ≤ fuel →
    (sliceChunksGo fuel p).flatten = p := by
  intro fuel
  induction fuel with
  | zero =>
      intro p hp
      match p with
      | [] => simp [sliceChunksGo]
      | c :: rest => simp at hp
  | succ n ih =>
      intro p hp
      match p with
      | [] => simp [sliceChunksGo]
      | c :: rest =>
          have hlen : ((c :: rest).drop maxChunkLength).length ≤ n := by
            simp only [maxChunkLength, List.length_drop, List.length_cons] at *
            omega
          simp only [sliceChunksGo, List.flatten_cons, ih _ hlen,
            List.take_append_drop]

theorem sliceChunksGo_length : ∀ (fuel : ℕ) (p : List ℕ), p.length ≤ fuel →
    p ≠ [] →
    (sliceChunksGo fuel p).length
      = (p.length + (maxChunkLength - 1)) / maxChunkLength := by
  intro fuel
  induction fuel with
  | zero =>
      intro p hp hne
      match p with
      | [] => exact (hne rfl).elim
      | c :: rest => simp at hp
  | succ n ih =>
      intro p hp hne
      match p with
      | [] => exact (hne rfl).elim
      | c :: rest =>
          simp only [sliceChunksGo]
          by_cases hlong : maxChunkLength < (c :: rest).length
          · have hd : (c :: rest).drop maxChunkLength ≠ [] := by
              intro hcon
              have := congrArg List.length hcon
              simp only [List.length_drop, List.length_nil] at this
              omega
            have hlen : ((c :: rest).drop maxChunkLength).length ≤ n := by
              simp only [maxChunkLength, List.length_drop, List.length_cons] at *
              omega
            have hrec := ih _ hlen hd
            simp only [List.length_cons, List.length_drop] at hrec ⊢
            rw [hrec]
            simp only [maxChunkLength] at *
            omega
          · have hd : (c :: rest).drop maxChunkLength = [] := by
              apply List.drop_eq_nil_of_le
              omega
            rw [hd]
            have hgo : sliceChunksGo n ([] : List ℕ) = [] := by
              cases n <;> rfl
            rw [hgo]
            simp only [List.length_cons, List.length_nil] at *
            simp only [maxChunkLength] at *
            omega

theorem sliceChunksGo_ne_nil : ∀ (fuel : ℕ) (p : List ℕ),
    ∀ c ∈ sliceChunksGo fuel p, c ≠ [] := by
  intro fuel
  induction fuel with
  | zero =>
      intro p c hc
      match p with
      | [] => simp [sliceChunksGo] at hc
      | a :: rest => simp [sliceChunksGo] at hc
  | succ n ih =>
      intro p c hc
      match p with
      | [] => simp [sliceChunksGo] at hc
      | a :: rest =>
          simp only [sliceChunksGo, List.mem_cons] at hc
          rcases hc with rfl | hc
          · simp [maxChunkLength]
          · exact ih _ c hc

theorem hardSplitParagraph_flatten (p : List ℕ) :
    (hardSplitParagraph p).flatten = p := by
  unfold hardSplitParagraph
  split
  · simp
  · exact sliceChunksGo_flatten p.length p le_rfl

theorem hardSplitParagraph_length (p : List ℕ) (hne : p ≠ []) :
    (hardSplitParagraph p).length
      = (p.length + (maxChunkLength - 1)) / maxChunkLength := by
  unfold hardSplitParagraph
  split
  · have hpos : 0 < p.length := List.length_pos.mpr hne
    simp only [List.length_cons, List.length_nil]
    simp only [maxChunkLength] at *
    omega
  · exact sliceChunksGo_length p.length p le_rfl hne

theorem hardSplitParagraph_ne_nil (p : List ℕ) (hne : p ≠ []) :
    ∀ c ∈ hardSplitParagraph p, c ≠ [] := by
  unfold hardSplitParagraph
  split
  · intro c hc
    simp only [List.mem_singleton] at hc
    subst hc
    exact hne
  · exact sliceChunksGo_ne_nil p.length p

theorem paragraphsOf_ne_nil (text : List ℕ) :
    ∀ p ∈ paragraphsOf text, p ≠ [] := by
  intro p hp
  unfold paragraphsOf at hp
  have h := (List.mem_filter.mp hp).2
  simp only [Bool.not_eq_true'] at h
  intro hcon
  subst hcon
  simp at h

/-- C9: for every input text the chunker returns exactly the pipeline
normalize line endings, split on blank-line boundaries, trim, drop empty
paragraphs, then hard-split each over-long paragraph; each retained
paragraph is nonempty, its hard split concatenates back to the paragraph,
and the number of its slices is the ceiling of length / 1200 (written
as (length + 1199) / 1200 in natural division, which is the ceiling for
every nonempty paragraph); no chunk of the output is empty.  Determinism
is inherent: `chunkText` is a function of the input text alone. -/
theorem chunkText_spec (text : List ℕ) :
    chunkText text = (paragraphsOf text).flatMap hardSplitParagraph
    ∧ (∀ p, p ∈ paragraphsOf text →
        p ≠ []
        ∧ (hardSplitParagraph p).flatten = p
        ∧ (hardSplitParagraph p).length
            = (p.length + (maxChunkLength - 1)) / maxChunkLength)
    ∧ (∀ c, c ∈ chunkText text → c ≠ []) := by
  refine ⟨rfl, ?_, ?_⟩
  · intro p hp
    have hne : p ≠ [] := paragraphsOf_ne_nil text p hp
    exact ⟨hne, hardSplitParagraph_flatten p, hardSplitParagraph_length p hne⟩
  · intro c hc
    unfold chunkText at hc
    rcases List.mem_flatMap.mp hc with ⟨p, hp, hcp⟩
    exact hardSplitParagraph_ne_nil p (paragraphsOf_ne_nil text p hp) c hcp

theorem chunkText_spec_witness :
    ([97] ∈ paragraphsOf [97, 10, 10, 98]
      ∧ (hardSplitParagraph [97]).flatten = [97])
    ∧ ([98] ∈ chunkText [97, 10, 10, 98] ∧ [98] ≠ ([] : List ℕ)) :=
  ⟨⟨by decide,
    ((chunkText_spec [97, 10, 10, 98]).2.1 [97] (by decide)).2.1⟩,
   by decide,
   (chunkText_spec [97, 10, 10, 98]).2.2 [98] (by decide)⟩

/-- True when the decoder rejects the payload. -/
def decodeFails (bytes : List ℕ) (sampleRate : ℕ) : Bool :=
  match decodeAudioData bytes sampleRate with
  | .error _ => true
  | .ok _ => false

/-- C7: decoding fails exactly when the payload byte length is not a
multiple of the 16-bit sample width or the payload is empty; in
particular a zero-length payload fails. -/
theorem decodeAudioData_fails_iff (bytes : List ℕ) (sr : ℕ) :
    decodeFails bytes sr = true ↔ (bytes.length % 2 ≠ 0 ∨ bytes = []) := by
  unfold decodeFails decodeAudioData
  by_cases h2 : bytes.length % 2 ≠ 0
  · simp only [if_pos h2]
    simpa using Or.inl h2
  · simp only [if_neg h2]
    push_neg at h2
    by_cases hz : (int16Samples bytes).length = 0
    · simp only [if_pos hz]
      have hnil : bytes = [] := by
        rw [int16Samples_length] at hz
        cases bytes with
        | nil => rfl
        | cons a rest =>
            simp only [List.length_cons] at hz h2
            omega
      simp [hnil]
    · simp only [if_neg hz]
      constructor
      · intro h
        cases h
      · rintro (h | h)
        · exact absurd h (by omega)
        · subst h
          simp [int16Samples] at hz

theorem decodeAudioData_fails_iff_witness :
    decodeFails [] 24000 = true :=
  (decodeAudioData_fails_iff [] 24000).mpr (Or.inr rfl)

/-- C8: a payload of N valid little-endian 16-bit samples decodes to a
buffer of exactly N frames, with the declared sample rate equal to the
input parameter, each sample equal to its 16-bit integer value divided by
32768, and all samples within [-1, 1]. -/
theorem decodeAudioData_ok_spec (bytes : List ℕ) (sr : ℕ)
    (h2 : bytes.length % 2 = 0) (hne : bytes ≠ [])
    (hb : ∀ b ∈ bytes, b < 256) :
    decodeAudioData bytes sr
      = .ok ⟨sr, (int16Samples bytes).map sampleToFloat⟩
    ∧ (int16Samples bytes).length = bytes.length / 2
    ∧ (∀ k lo hi, bytes.get? (2 * k) = some lo →
        bytes.get? (2 * k + 1) = some hi →
        (int16Samples bytes).get? k = some (int16OfBytes lo hi))
    ∧ (∀ q ∈ (int16Samples bytes).map sampleToFloat,
        -1 ≤ q ∧ q ≤ 1) := by
  have hok : decodeAudioData bytes sr
      = .ok ⟨sr, (int16Samples bytes).map sampleToFloat⟩ := by
    unfold decodeAudioData
    rw [if_neg (by omega)]
    have hz : (int16Samples bytes).length ≠ 0 := by
      rw [int16Samples_length]
      cases bytes with
      | nil => exact (hne rfl).elim
      | cons a rest =>
          simp only [List.length_cons] at h2 ⊢
          omega
    rw [if_neg hz]
  refine ⟨hok, int16Samples_length bytes, int16Samples_get? bytes, ?_⟩
  intro q hq
  rcases List.mem_map.mp hq with ⟨w, hw, hwq⟩
  subst hwq
  have hr := int16Samples_range bytes hb w hw
  constructor
  · unfold sampleToFloat
    rw [le_div_iff₀ (by norm_num : (0 : ℚ) < 32768)]
    have : (-32768 : ℚ) ≤ (w : ℚ) := by exact_mod_cast hr.1
    linarith
  · unfold sampleToFloat
    rw [div_le_one (by norm_num : (0 : ℚ) < 32768)]
    have : (w : ℚ) < 32768 := by exact_mod_cast hr.2
    linarith

theorem decodeAudioData_ok_spec_witness :
    decodeAudioData [0, 128] 24000
      = .ok ⟨24000, (int16Samples [0, 128]).map sampleToFloat⟩ :=
  (decodeAudioData_ok_spec [0, 128] 24000 (by decide) (by decide)
    (by decide)).1

/-! ## Scheduling arithmetic (playBuffer, src/App.tsx lines 379 to 433) -/

/-- Timing arithmetic of one `playBuffer` call (src/App.tsx lines 400 to
426): clamp the start offset into [0, duration], divide the remaining
duration by the playback rate, pull the cursor up to the current time if it
has fallen behind (lines 405 to 407), start at the cursor and advance it by
the rate-adjusted remaining duration.  Returns (scheduled start, updated
cursor). -/
def playBufferSchedule (cursor now duration startOffset rate : ℚ) : ℚ × ℚ :=
  let clamped := min (max startOffset 0) duration
  let remaining := max 0 (duration - clamped) / rate
  let c := if cursor < now then now else cursor
  (c, c + remaining)

/-- The sequence of `playBuffer` calls of one uninterrupted `playQueue`
loop: each list entry is the (current time, buffer duration, playback
rate) observed when that chunk is scheduled; the caller start offset is
applied to the first chunk only and 0 to every later one (src/App.tsx
line 355).  Returns the (scheduled start, cursor after) pairs. -/
def schedTrace (cursor startOffset : ℚ) : List (ℚ × ℚ × ℚ) → List (ℚ × ℚ)
  | [] => []
  | (now, dur, rate) :: rest =>
      let s := playBufferSchedule cursor now dur startOffset rate
      s :: schedTrace s.2 0 rest

/-- The cursor starts at the current time plus 0.1 seconds (src/App.tsx
line 311). -/
def playQueueSchedule (now0 startOffset : ℚ) (bufs : List (ℚ × ℚ × ℚ)) :
    List (ℚ × ℚ) :=
  schedTrace (now0 + 1 / 10) startOffset bufs

/-- The start offset actually passed for iteration k of the loop. -/
def loopOffset (off : ℚ) (k : ℕ) : ℚ := if k = 0 then off else 0

theorem playBufferSchedule_eq (c now dur off rate : ℚ) :
    playBufferSchedule c now dur off rate
      = (max c now, max c now + (dur - min (max off 0) dur) / rate) := by
  unfold playBufferSchedule
  have h1 : min (max off 0) dur ≤ dur := min_le_right _ _
  have h2 : max 0 (dur - min (max off 0) dur) = dur - min (max off 0) dur :=
    max_eq_right (by linarith)
  have hmax : (if c < now then now else c) = max c now := by
    rcases lt_or_le c now with h | h
    · simp [h, max_eq_right h.le]
    · simp [not_lt.mpr h, max_eq_left h]
  simp only [h2, hmax]

theorem schedTrace_consecutive :
    ∀ (bufs : List (ℚ × ℚ × ℚ)) (c off : ℚ) (k : ℕ)
      (n1 d1 r1 n2 d2 r2 s1 c1 s2 c2 : ℚ),
      bufs.get? k = some (n1, d1, r1) →
      bufs.get? (k + 1) = some (n2, d2, r2) →
      (schedTrace c off bufs).get? k = some (s1, c1) →
      (schedTrace c off bufs).get? (k + 1) = some (s2, c2) →
      n2 ≤ c1 →
      s2 = s1 + (d1 - min (max (loopOffset off k) 0) d1) / r1 := by
  intro bufs
  induction bufs with
  | nil =>
      intro c off k n1 d1 r1 n2 d2 r2 s1 c1 s2 c2 h1 h2 h3 h4 hle
      simp at h1
  | cons b rest ih =>
      intro c off k n1 d1 r1 n2 d2 r2 s1 c1 s2 c2 h1 h2 h3 h4 hle
      obtain ⟨bn, bd, br⟩ := b
      cases k with
      | zero =>
          simp only [List.get?] at h1 h2
          cases h1
          match rest, h2 with
          | (m2, e2, q2) :: rest2, h2 =>
              simp only [List.get?] at h2
              cases h2
              have h3' : playBufferSchedule c n1 d1 off r1 = (s1, c1) := by
                simpa [schedTrace] using h3
              have h4' : playBufferSchedule
                  (playBufferSchedule c n1 d1 off r1).2 n2 d2 0 r2
                    = (s2, c2) := by
                simpa [schedTrace] using h4
              have hc1 : (playBufferSchedule c n1 d1 off r1).2 = c1 := by
                rw [h3']
              rw [hc1] at h4'
              rw [playBufferSchedule_eq, Prod.mk.injEq] at h3' h4'
              have hoff : loopOffset off 0 = off := rfl
              rw [hoff, ← h4'.1, ← h3'.1]
              rw [← h3'.2] at hle ⊢
              exact max_eq_left hle
      | succ k =>
          simp only [List.get?] at h1 h2
          simp only [schedTrace, List.get?] at h3 h4
          have hres := ih (playBufferSchedule c bn bd off br).2 0 k
            n1 d1 r1 n2 d2 r2 s1 c1 s2 c2 h1 h2 h3 h4 hle
          simpa [loopOffset] using hres

/-- C1 counterexample: when a buffer arrives after the cursor has passed
(here the second buffer is scheduled at time 10 while the cursor stands at
11/10), the scheduled start is the current time, not the previous start
plus the rate-adjusted remaining duration; the unconditional
consecutive-start equality of the claim fails. -/
theorem playQueueSchedule_gap_counterexample :
    (playQueueSchedule 0 0 [(0, 1, 1), (10, 1, 1)]).get? 0
        = some (1 / 10, 11 / 10)
    ∧ (playQueueSchedule 0 0 [(0, 1, 1), (10, 1, 1)]).get? 1 = some (10, 11)
    ∧ (10 : ℚ) ≠ 1 / 10 + (1 - min (max (0 : ℚ) 0) 1) / 1 := by
  refine ⟨?_, ?_, by norm_num⟩ <;>
    norm_num [playQueueSchedule, schedTrace, playBufferSchedule, List.get?]

/-- C1 (amended): during one uninterrupted playQueue loop the cursor is
initialized to the current time plus 0.1 s; every buffer is scheduled at
max(cursor, current time); the caller start offset is applied only to the
first buffer of the loop and 0 afterwards; after scheduling, the cursor
advances by exactly (duration - clamped offset) / rate; and consecutive
scheduled starts satisfy start(k+1) = start(k) + (duration(k) - clamped
offset(k)) / rate(k) provided buffer k+1 is scheduled no later than the
cursor (a late buffer starts at the current time instead). -/
theorem playQueueSchedule_gapless :
    (∀ now0 off bufs,
        playQueueSchedule now0 off bufs = schedTrace (now0 + 1 / 10) off bufs)
    ∧ (∀ c now dur off rate,
        playBufferSchedule c now dur off rate
          = (max c now, max c now + (dur - min (max off 0) dur) / rate))
    ∧ (∀ c off now dur rate rest,
        schedTrace c off ((now, dur, rate) :: rest)
          = playBufferSchedule c now dur off rate
              :: schedTrace (playBufferSchedule c now dur off rate).2 0 rest)
    ∧ (∀ bufs c off k n1 d1 r1 n2 d2 r2 s1 c1 s2 c2,
        bufs.get? k = some (n1, d1, r1) →
        bufs.get? (k + 1) = some (n2, d2, r2) →
        (schedTrace c off bufs).get? k = some (s1, c1) →
        (schedTrace c off bufs).get? (k + 1) = some (s2, c2) →
        n2 ≤ c1 →
        s2 = s1 + (d1 - min (max (loopOffset off k) 0) d1) / r1) :=
  ⟨fun _ _ _ => rfl, playBufferSchedule_eq, fun _ _ _ _ _ _ => rfl,
   schedTrace_consecutive⟩

theorem playQueueSchedule_gapless_witness :
    (0 : ℚ) ≤ 11 / 10
    ∧ (11 / 10 : ℚ) = 1 / 10 + (1 - min (max (loopOffset 0 0) 0) 1) / 1 :=
  ⟨by norm_num,
   playQueueSchedule_gapless.2.2.2 [(0, 1, 1), (0, 2, 1)] (1 / 10) 0 0
     0 1 1 0 2 1 (1 / 10) (11 / 10) (11 / 10) (31 / 10)
     rfl rfl
     (by norm_num [schedTrace, playBufferSchedule, List.get?])
     (by norm_num [schedTrace, playBufferSchedule, List.get?])
     (by norm_num)⟩

/-! ## Playback engine transition system (src/App.tsx) -/

/-- A decoded audio buffer with its provenance: the chunk it voices, the
voice it was synthesized with, and its duration in seconds. -/
structure Buffer where
  chunk : ℕ
  voice : ℕ
  duration : ℚ
deriving Repr, DecidableEq

/-- One audio output source that was actually started
(`AudioBufferSourceNode` after `source.start`).  A source created but never
started because its remaining duration is 0 (line 409) emits nothing and is
not recorded. -/
structure SourceRec where
  buf : Buffer
  startAt : ℚ
  offset : ℚ
  rate : ℚ
  stopped : Bool
  disconnected : Bool
  ended : Bool
deriving Repr, DecidableEq

inductive Status
  | idle
  | playing
  | paused
deriving Repr, DecidableEq

/-- Identity of one playQueue invocation: the session id captured at line
302 and the loop arguments. -/
structure LoopTask where
  sid : ℕ
  startIndex : ℕ
  startOffset : ℚ
deriving Repr, DecidableEq

/-- The suspension point at which a playQueue loop waits: the blocking
synthesis call of line 335 (with the voice captured at line 330), or the
end of the buffer started for chunk i. -/
inductive LoopPhase
  | awaitSynth (i : ℕ) (voiceAtStart : ℕ)
  | awaitEnd (i : ℕ) (src : ℕ)
deriving Repr, DecidableEq

/-- A background fetch spawned by prefetchWindow, carrying the voice
captured when the window was spawned (line 231). -/
structure PrefetchTask where
  idx : ℕ
  voiceAtStart : ℕ
deriving Repr, DecidableEq

/-- The state of the App component: React state, the refs, and the
suspended asynchronous tasks.  The ref-syncing effects of lines 88 to 91
are modeled as immediate, which is their purpose. -/
structure AppState where
  status : Status
  currentChunkIndex : ℤ
  errorAt : Option ℕ
  numChunks : ℕ
  audioBuffers : List (Option Buffer)
  sources : List SourceRec
  activeSource : Option ℕ
  nextStartTime : ℚ
  chunkStartTime : ℚ
  chunkStartOffset : ℚ
  chunkPlaybackRate : ℚ
  resumeOffset : ℚ
  sessionId : ℕ
  selectedVoice : ℕ
  speed : ℚ
  processing : List ℕ
  loops : List (LoopTask × LoopPhase)
  prefetches : List PrefetchTask
  pendingClicks : List ℕ
deriving Repr, DecidableEq

/-- `audioBuffersRef.current[i]`, with an out-of-range read yielding the
falsy undefined. -/
def cacheGet (s : AppState) (i : ℕ) : Option Buffer :=
  (s.audioBuffers.get? i).getD none

/-- Mark source j stopped; `disc` additionally marks it disconnected
(stopPlayback lines 211 to 212 stop and disconnect, playBuffer line 391
only stops). -/
def stopSource (j : ℕ) (disc : Bool) (l : List SourceRec) : List SourceRec :=
  match l.get? j with
  | some r => l.set j { r with stopped := true,
                               disconnected := r.disconnected || disc }
  | none => l

/-- Mark source j as having reached its end event. -/
def markEnded (j : ℕ) (l : List SourceRec) : List SourceRec :=
  match l.get? j with
  | some r => l.set j { r with ended := true }
  | none => l

/-- The resume offset computed by stopPlayback with pauseOnly (src/App.tsx
lines 183 to 198): the offset at which the sounding buffer was started
plus the elapsed wall-clock time times the playback rate (falling back to
the speed ref when the rate ref is 0, the JavaScript falsy check of line
187), clamped to [0, duration]; 0 when no source is sounding. -/
def pauseResumeOffset (now : ℚ) (s : AppState) : ℚ :=
  match s.activeSource.bind (fun j => s.sources.get? j) with
  | some r =>
      let elapsed := max 0 (now - s.chunkStartTime)
      let rate := if s.chunkPlaybackRate ≠ 0 then s.chunkPlaybackRate
                  else s.speed
      let dur := r.buf.duration
      let nextOffset := s.chunkStartOffset + elapsed * rate
      if 0 < dur then min (max nextOffset 0) dur else 0
  | none => 0

/-- stopPlayback (src/App.tsx lines 181 to 225) at current time `now`:
with pauseOnly, compute and store the resume offset from the elapsed time
within the sounding buffer, clamped to [0, duration]; otherwise clear the
offsets.  Then bump the session id, stop and disconnect the active source,
and set the UI state. -/
def stopPlayback (pauseOnly : Bool) (now : ℚ) (s : AppState) : AppState :=
  let s :=
    if pauseOnly then { s with resumeOffset := pauseResumeOffset now s }
    else
      { s with resumeOffset := 0, chunkStartOffset := 0, chunkStartTime := 0 }
  let s := { s with sessionId := s.sessionId + 1 }
  let s :=
    match s.activeSource with
    | some j => { s with sources := stopSource j true s.sources,
                         activeSource := none }
    | none => s
  if pauseOnly then { s with status := .paused }
  else { s with status := .idle, currentChunkIndex := -1, nextStartTime := 0 }

/-- One iteration of the prefetchWindow for loop (src/App.tsx lines 234
to 262): an index beyond the sequence, already cached, or already in
flight is skipped; otherwise it is marked in flight and a background fetch
carrying the captured voice is spawned. -/
def spawnPrefetchStep (start : ℕ) (t : AppState) (k : ℕ) : AppState :=
  let i := start + k
  if t.numChunks ≤ i then t
  else if (cacheGet t i).isSome then t
  else if i ∈ t.processing then t
  else { t with processing := i :: t.processing,
                prefetches := t.prefetches ++ [⟨i, t.selectedVoice⟩] }

/-- prefetchWindow (src/App.tsx lines 229 to 263): the synchronous for
loop over the window. -/
def spawnPrefetch (start w : ℕ) (s : AppState) : AppState :=
  (List.range w).foldl (spawnPrefetchStep start) s

/-- Outcome of a playBuffer call: resolved immediately at the stale-session
fence of line 382, resolved immediately with remaining duration 0 (line
409), or started source number idx and suspended until its end. -/
inductive PBOut
  | stale
  | zero
  | started (idx : ℕ)
deriving Repr, DecidableEq

/-- playBuffer (src/App.tsx lines 379 to 433): fence on the captured
session id, stop (without disconnecting) any lingering active source,
compute the clamped offset and rate-adjusted remaining duration, pull the
cursor up to now if it fell behind, then either resolve at once or start
the new source at the cursor and advance the cursor. -/
def playBufferF (sid : ℕ) (startOffset : ℚ) (buf : Buffer) (now : ℚ)
    (s : AppState) : AppState × PBOut :=
  if s.sessionId ≠ sid then (s, .stale)
  else
    let s :=
      match s.activeSource with
      | some j => { s with sources := stopSource j false s.sources,
                           activeSource := none }
      | none => s
    let rate := s.speed
    let dur := buf.duration
    let clamped := min (max startOffset 0) dur
    let remaining := max 0 (dur - clamped) / rate
    let cursor := if s.nextStartTime < now then now else s.nextStartTime
    if remaining = 0 then
      ({ s with chunkStartOffset := clamped, chunkStartTime := now,
                chunkPlaybackRate := rate,
                nextStartTime := cursor + remaining }, .zero)
    else
      let idx := s.sources.length
      ({ s with
          sources := s.sources ++ [⟨buf, cursor, clamped, rate,
            false, false, false⟩],
          activeSource := some idx,
          chunkStartOffset := clamped, chunkStartTime := cursor,
          chunkPlaybackRate := rate,
          nextStartTime := cursor + remaining }, .started idx)

/-- Offset passed to playBuffer for iteration i (src/App.tsx line 355): the
caller start offset on the first iteration, 0 afterwards. -/
def iterOffset (t : LoopTask) (i : ℕ) : ℚ :=
  if i = t.startIndex then t.startOffset else 0

/-- The playQueue for loop (src/App.tsx lines 316 to 377) run from the top
of iteration i until the task suspends (cache miss awaiting synthesis, or
a started buffer awaiting its end), finishes, or dies at a fence check.
After a playBuffer call that resolved at once, line 357 clears the resume
offset when i is the start index and the loop continues.  A suspended task
is appended to the task list.  Fuel only bounds the recursion; every call
site passes fuel larger than the number of remaining iterations, so the
fuel 0 branch is unreachable. -/
def loopGo : ℕ → LoopTask → ℕ → ℚ → AppState → AppState
  | 0, _, _, _, s => s
  | fuel + 1, t, i, now, s =>
    if s.numChunks ≤ i then
      if s.sessionId = t.sid then
        { s with status := .idle, currentChunkIndex := -1 }
      else s
    else if s.sessionId ≠ t.sid then s
    else
      let s := { s with currentChunkIndex := (i : ℤ) }
      let s := spawnPrefetch (i + 1) 3 s
      match cacheGet s i with
      | some buf =>
          match playBufferF t.sid (iterOffset t i) buf now s with
          | (s1, .started j) =>
              { s1 with loops := s1.loops ++ [(t, .awaitEnd i j)] }
          | (s1, .zero) =>
              let s2 := if i = t.startIndex then { s1 with resumeOffset := 0 }
                        else s1
              loopGo fuel t (i + 1) now s2
          | (s1, .stale) =>
              let s2 := if i = t.startIndex then { s1 with resumeOffset := 0 }
                        else s1
              loopGo fuel t (i + 1) now s2
      | none =>
          { s with
              processing := if i ∈ s.processing then s.processing
                            else i :: s.processing,
              loops := s.loops ++ [(t, .awaitSynth i s.selectedVoice)] }

/-- Continuation of the playQueue loop after its blocking synthesis call
for chunk i returns (src/App.tsx lines 336 to 369).  On success: remove
the in-flight marker (line 336), fence on the session (line 339), break to
the loop epilogue if the voice changed (line 340, with the epilogue of
lines 373 to 376 running under a current session), store the decoded
buffer (lines 342 to 348), fence again (line 352), play it and continue
the loop.  On failure the marker removal is skipped and the catch block
of lines 361 to 369 runs: under a current session it reports the failing
paragraph and pauses, otherwise it only logs. -/
def synthContinue (t : LoopTask) (i v : ℕ) (ok : Bool) (dur now : ℚ)
    (s : AppState) : AppState :=
  if ok then
    let s := { s with processing := s.processing.filter (fun j => j ≠ i) }
    if s.sessionId ≠ t.sid then s
    else if v ≠ s.selectedVoice then
      { s with status := .idle, currentChunkIndex := -1 }
    else
      let buf : Buffer := ⟨i, v, dur⟩
      let s := { s with audioBuffers := s.audioBuffers.set i (some buf) }
      if s.sessionId ≠ t.sid then s
      else
        match playBufferF t.sid (iterOffset t i) buf now s with
        | (s1, .started j) =>
            { s1 with loops := s1.loops ++ [(t, .awaitEnd i j)] }
        | (s1, .zero) =>
            let s2 := if i = t.startIndex then { s1 with resumeOffset := 0 }
                      else s1
            loopGo (s2.numChunks + 1) t (i + 1) now s2
        | (s1, .stale) =>
            let s2 := if i = t.startIndex then { s1 with resumeOffset := 0 }
                      else s1
            loopGo (s2.numChunks + 1) t (i + 1) now s2
  else
    if s.sessionId = t.sid then
      stopPlayback true now { s with errorAt := some (i + 1) }
    else s

/-- The buffer-end event of the source awaited by loop task k: the onended
callback resolves the playBuffer promise (line 428), line 357 clears the
resume offset when the finished chunk is the start index, and the loop
proceeds to the next iteration. -/
def bufferEnded (k : ℕ) (now : ℚ) (s : AppState) : AppState :=
  match s.loops.get? k with
  | some (t, .awaitEnd i j) =>
      let s := { s with loops := s.loops.eraseIdx k,
                        sources := markEnded j s.sources }
      let s := if i = t.startIndex then { s with resumeOffset := 0 } else s
      loopGo (s.numChunks + 1) t (i + 1) now s
  | _ => s

/-- Completion of background prefetch task k (the continuation of lines
242 to 261): on success the result is discarded when the selected voice no
longer matches the captured voice, otherwise the decoded buffer is stored
(bounds-checked, line 252); on failure only a warning is logged.  In every
case the finally block removes the in-flight marker. -/
def prefetchFinish (k : ℕ) (ok : Bool) (dur : ℚ) (s : AppState) : AppState :=
  match s.prefetches.get? k with
  | some pf =>
      let s := { s with prefetches := s.prefetches.eraseIdx k }
      if ok then
        if s.selectedVoice ≠ pf.voiceAtStart then
          { s with processing := s.processing.filter (fun j => j ≠ pf.idx) }
        else
          let s := { s with audioBuffers :=
            if pf.idx < s.audioBuffers.length then
              s.audioBuffers.set pf.idx (some ⟨pf.idx, pf.voiceAtStart, dur⟩)
            else s.audioBuffers }
          { s with processing := s.processing.filter (fun j => j ≠ pf.idx) }
      else { s with processing := s.processing.filter (fun j => j ≠ pf.idx) }
  | none => s

/-- playQueue (src/App.tsx lines 295 to 377) from its entry to the first
suspension of its loop: the bail-out for a start index beyond the chunk
sequence (lines 296 to 299), the session capture of line 302, the cursor
reset of line 311, the prefetch kick of line 314, and the loop.  The audio
context is modeled as always running, so the resume of line 307 does not
suspend. -/
def playQueue (startIndex : ℕ) (startOffset now : ℚ) (s : AppState) :
    AppState :=
  if s.numChunks ≤ startIndex then stopPlayback false now s
  else
    let t : LoopTask := ⟨s.sessionId, startIndex, startOffset⟩
    let s := { s with status := .playing, nextStartTime := now + 1 / 10 }
    let s := spawnPrefetch startIndex 3 s
    loopGo (s.numChunks + 1) t startIndex now s

/-- handleTogglePlay (src/App.tsx lines 435 to 447). -/
def handleTogglePlay (now : ℚ) (s : AppState) : AppState :=
  if s.status = .playing then stopPlayback true now s
  else
    let s := { s with sessionId := s.sessionId + 1 }
    let si := if -1 < s.currentChunkIndex then s.currentChunkIndex.toNat
              else 0
    let off := if s.status = .paused then s.resumeOffset else 0
    playQueue si off now s

/-- handleParagraphClick (src/App.tsx lines 449 to 460): stop, bump the
session, and schedule the new playQueue behind a timeout. -/
def handleParagraphClick (idx : ℕ) (now : ℚ) (s : AppState) : AppState :=
  let s := stopPlayback true now s
  { s with sessionId := s.sessionId + 1,
           pendingClicks := s.pendingClicks ++ [idx] }

/-- The timeout of line 457 fires and runs the scheduled playQueue. -/
def fireClick (now : ℚ) (s : AppState) : AppState :=
  match s.pendingClicks with
  | [] => s
  | idx :: rest => playQueue idx 0 now { s with pendingClicks := rest }

/-- handleVoiceChange (src/App.tsx lines 462 to 467): pause, switch the
voice, clear every cached buffer, clear every in-flight marker. -/
def handleVoiceChange (v : ℕ) (now : ℚ) (s : AppState) : AppState :=
  let s := stopPlayback true now s
  { s with selectedVoice := v,
           audioBuffers := List.replicate s.numChunks none,
           processing := [] }

/-- The speed effect (src/App.tsx lines 92 to 114): update the live rate
of the sounding source and re-baseline the elapsed-time accounting at the
moment of the change. -/
def handleSpeedChange (r : ℚ) (now : ℚ) (s : AppState) : AppState :=
  let s1 :=
    match s.activeSource.bind (fun j => s.sources.get? j) with
    | some srcRec =>
        if s.chunkStartTime < now then
          let rateAtStart := if s.chunkPlaybackRate ≠ 0 then
                               s.chunkPlaybackRate
                             else r
          let off := s.chunkStartOffset + (now - s.chunkStartTime) * rateAtStart
          let off := if srcRec.buf.duration ≠ 0 ∧ srcRec.buf.duration < off
                     then srcRec.buf.duration else off
          { s with chunkStartOffset := off, chunkStartTime := now }
        else s
    | none => s
  { s1 with speed := r, chunkPlaybackRate := r }

/-- The suspension events at which an atomic segment of the engine runs:
user interactions, the paragraph-click timer, a synthesis response for the
loop task or a prefetch task (with the environment choosing success and
the decoded duration), and a buffer-end callback. -/
inductive Event
  | togglePlay (now : ℚ)
  | paragraphClick (idx : ℕ) (now : ℚ)
  | clickTimer (now : ℚ)
  | voiceChange (v : ℕ) (now : ℚ)
  | speedChange (r : ℚ) (now : ℚ)
  | synthDone (k : ℕ) (ok : Bool) (dur : ℚ) (now : ℚ)
  | bufEnd (k : ℕ) (now : ℚ)
  | prefetchDone (k : ℕ) (ok : Bool) (dur : ℚ)
deriving Repr, DecidableEq

/-- One atomic segment of the engine. -/
def step (s : AppState) : Event → AppState
  | .togglePlay now => handleTogglePlay now s
  | .paragraphClick idx now => handleParagraphClick idx now s
  | .clickTimer now => fireClick now s
  | .voiceChange v now => handleVoiceChange v now s
  | .speedChange r now => handleSpeedChange r now s
  | .synthDone k ok dur now =>
      match s.loops.get? k with
      | some (t, .awaitSynth i v) =>
          synthContinue t i v ok dur now { s with loops := s.loops.eraseIdx k }
      | _ => s
  | .bufEnd k now => bufferEnded k now s
  | .prefetchDone k ok dur => prefetchFinish k ok dur s

def runEvents (s : AppState) (evts : List Event) : AppState :=
  evts.foldl step s

/-- The state right after a chunk sequence of n chunks is loaded
(handleFetchContent, lines 265 to 293), with selected voice v and playback
speed r. -/
def initState (n v : ℕ) (r : ℚ) : AppState :=
  { status := .idle
    currentChunkIndex := -1
    errorAt := none
    numChunks := n
    audioBuffers := List.replicate n none
    sources := []
    activeSource := none
    nextStartTime := 0
    chunkStartTime := 0
    chunkStartOffset := 0
    chunkPlaybackRate := r
    resumeOffset := 0
    sessionId := 0
    selectedVoice := v
    speed := r
    processing := []
    loops := []
    prefetches := []
    pendingClicks := [] }

/-! ### List access helpers -/

theorem get?_set_self {α : Type _} :
    ∀ (l : List α) (j : ℕ) (a : α), j < l.length →
      (l.set j a).get? j = some a := by
  intro l
  induction l with
  | nil =>
      intro j a h
      simp at h
  | cons x xs ih =>
      intro j a h
      cases j with
      | zero => rfl
      | succ j =>
          simp only [List.set, List.get?]
          exact ih j a (by simpa using h)

theorem get?_set_ne {α : Type _} :
    ∀ (l : List α) (j j' : ℕ) (a : α), j ≠ j' →
      (l.set j a).get? j' = l.get? j' := by
  intro l
  induction l with
  | nil =>
      intro j j' a _
      simp
  | cons x xs ih =>
      intro j j' a h
      cases j with
      | zero =>
          cases j' with
          | zero => exact (h rfl).elim
          | succ j' => rfl
      | succ j =>
          cases j' with
          | zero => rfl
          | succ j' =>
              simp only [List.set, List.get?]
              exact ih j j' a (fun hc => h (by rw [hc]))

theorem get?_set_cases {α : Type _} (l : List α) (j j' : ℕ) (a b : α)
    (h : (l.set j a).get? j' = some b) :
    l.get? j' = some b ∨ (j' = j ∧ b = a) := by
  by_cases hj : j = j'
  · subst hj
    by_cases hl : j < l.length
    · rw [get?_set_self l j a hl] at h
      cases h
      exact Or.inr ⟨rfl, rfl⟩
    · rw [List.set_eq_of_length_le (by omega)] at h
      exact Or.inl h
  · rw [get?_set_ne l j j' a hj] at h
    exact Or.inl h

theorem get?_append_cases {α : Type _} :
    ∀ (l : List α) (a : α) (j : ℕ) (b : α),
      (l ++ [a]).get? j = some b →
      l.get? j = some b ∨ (j = l.length ∧ b = a) := by
  intro l
  induction l with
  | nil =>
      intro a j b h
      cases j with
      | zero =>
          simp only [List.nil_append, List.get?] at h
          cases h
          exact Or.inr ⟨rfl, rfl⟩
      | succ j =>
          simp only [List.nil_append, List.get?] at h
          cases j <;> simp [List.get?] at h
  | cons x xs ih =>
      intro a j b h
      cases j with
      | zero =>
          simp only [List.cons_append, List.get?] at h
          exact Or.inl h
      | succ j =>
          simp only [List.cons_append, List.get?] at h
          rcases ih a j b h with h' | ⟨hj, hb⟩
          · exact Or.inl h'
          · exact Or.inr ⟨by simp [hj], hb⟩

theorem get?_append_left' {α : Type _} :
    ∀ (l l2 : List α) (j : ℕ), j < l.length →
      (l ++ l2).get? j = l.get? j := by
  intro l
  induction l with
  | nil =>
      intro l2 j h
      simp at h
  | cons x xs ih =>
      intro l2 j h
      cases j with
      | zero => rfl
      | succ j =>
          simp only [List.cons_append, List.get?]
          exact ih l2 j (by simpa using h)

theorem get?_append_length {α : Type _} :
    ∀ (l : List α) (a : α), (l ++ [a]).get? l.length = some a := by
  intro l
  induction l with
  | nil =>
      intro a
      rfl
  | cons x xs ih =>
      intro a
      simp only [List.cons_append, List.length_cons, List.get?]
      exact ih a

/-! ### Source list helpers -/

theorem stopSource_length (j : ℕ) (d : Bool) (l : List SourceRec) :
    (stopSource j d l).length = l.length := by
  unfold stopSource
  cases h : l.get? j <;> simp

theorem markEnded_length (j : ℕ) (l : List SourceRec) :
    (markEnded j l).length = l.length := by
  unfold markEnded
  cases h : l.get? j <;> simp

theorem stopSource_get?_spec (j : ℕ) (d : Bool) (l : List SourceRec)
    (j' : ℕ) (r' : SourceRec)
    (h : (stopSource j d l).get? j' = some r') :
    ∃ r0, l.get? j' = some r0 ∧ r'.buf = r0.buf ∧ r'.ended = r0.ended ∧
      (r'.stopped = false → r0.stopped = false ∧ j' ≠ j) := by
  unfold stopSource at h
  cases hj : l.get? j with
  | none =>
      rw [hj] at h
      exact ⟨r', h, rfl, rfl, fun hs => ⟨hs, by
        intro hc
        subst hc
        rw [hj] at h
        cases h⟩⟩
  | some r =>
      rw [hj] at h
      by_cases he : j = j'
      · subst he
        have hlt : j < l.length := by
          by_contra hcon
          rw [List.get?_eq_none.mpr (by omega)] at hj
          cases hj
        rw [get?_set_self _ _ _ hlt] at h
        cases h
        exact ⟨r, hj, rfl, rfl, fun hs => by simp at hs⟩
      · rw [get?_set_ne _ _ _ _ he] at h
        exact ⟨r', h, rfl, rfl, fun hs => ⟨hs, fun hc => he hc.symm⟩⟩

theorem markEnded_get?_spec (j : ℕ) (l : List SourceRec)
    (j' : ℕ) (r' : SourceRec)
    (h : (markEnded j l).get? j' = some r') :
    ∃ r0, l.get? j' = some r0 ∧ r'.buf = r0.buf ∧ r'.stopped = r0.stopped ∧
      (r'.ended = false → r0.ended = false) := by
  unfold markEnded at h
  cases hj : l.get? j with
  | none =>
      rw [hj] at h
      exact ⟨r', h, rfl, rfl, fun hs => hs⟩
  | some r =>
      rw [hj] at h
      by_cases he : j = j'
      · subst he
        have hlt : j < l.length := by
          by_contra hcon
          rw [List.get?_eq_none.mpr (by omega)] at hj
          cases hj
        rw [get?_set_self _ _ _ hlt] at h
        cases h
        exact ⟨r, hj, rfl, rfl, fun hs => by simp at hs⟩
      · rw [get?_set_ne _ _ _ _ he] at h
        exact ⟨r', h, rfl, rfl, fun hs => hs⟩

/-! ### A concrete run: play, pause during the first chunk, resume

Chunk sequence of length 2, voice 0, speed 1.  The user starts playback at
time 0, the synthesis of chunk 0 returns at time 0 with a 10 second
buffer, the user pauses at time 5, the stopped source fires its end event,
and the user resumes at time 6. -/

def pauseS1 : AppState :=
  { status := .playing, currentChunkIndex := 0, errorAt := none
    numChunks := 2, audioBuffers := [none, none], sources := []
    activeSource := none, nextStartTime := 1 / 10, chunkStartTime := 0
    chunkStartOffset := 0, chunkPlaybackRate := 1, resumeOffset := 0
    sessionId := 1, selectedVoice := 0, speed := 1, processing := [1, 0]
    loops := [(⟨1, 0, 0⟩, .awaitSynth 0 0)]
    prefetches := [⟨0, 0⟩, ⟨1, 0⟩], pendingClicks := [] }

def pauseS2 : AppState :=
  { status := .playing, currentChunkIndex := 0, errorAt := none
    numChunks := 2
    audioBuffers := [some ⟨0, 0, 10⟩, none]
    sources := [⟨⟨0, 0, 10⟩, 1 / 10, 0, 1, false, false, false⟩]
    activeSource := some 0, nextStartTime := 101 / 10
    chunkStartTime := 1 / 10, chunkStartOffset := 0, chunkPlaybackRate := 1
    resumeOffset := 0, sessionId := 1, selectedVoice := 0, speed := 1
    processing := [1]
    loops := [(⟨1, 0, 0⟩, .awaitEnd 0 0)]
    prefetches := [⟨0, 0⟩, ⟨1, 0⟩], pendingClicks := [] }

def pauseS3 : AppState :=
  { status := .paused, currentChunkIndex := 0, errorAt := none
    numChunks := 2
    audioBuffers := [some ⟨0, 0, 10⟩, none]
    sources := [⟨⟨0, 0, 10⟩, 1 / 10, 0, 1, true, true, false⟩]
    activeSource := none, nextStartTime := 101 / 10
    chunkStartTime := 1 / 10, chunkStartOffset := 0, chunkPlaybackRate := 1
    resumeOffset := 49 / 10, sessionId := 2, selectedVoice := 0, speed := 1
    processing := [1]
    loops := [(⟨1, 0, 0⟩, .awaitEnd 0 0)]
    prefetches := [⟨0, 0⟩, ⟨1, 0⟩], pendingClicks := [] }

def pauseS4 : AppState :=
  { status := .paused, currentChunkIndex := 0, errorAt := none
    numChunks := 2
    audioBuffers := [some ⟨0, 0, 10⟩, none]
    sources := [⟨⟨0, 0, 10⟩, 1 / 10, 0, 1, true, true, true⟩]
    activeSource := none, nextStartTime := 101 / 10
    chunkStartTime := 1 / 10, chunkStartOffset := 0, chunkPlaybackRate := 1
    resumeOffset := 0, sessionId := 2, selectedVoice := 0, speed := 1
    processing := [1]
    loops := []
    prefetches := [⟨0, 0⟩, ⟨1, 0⟩], pendingClicks := [] }

def pauseS5 : AppState :=
  { status := .playing, currentChunkIndex := 0, errorAt := none
    numChunks := 2
    audioBuffers := [some ⟨0, 0, 10⟩, none]
    sources := [⟨⟨0, 0, 10⟩, 1 / 10, 0, 1, true, true, true⟩,
                ⟨⟨0, 0, 10⟩, 61 / 10, 0, 1, false, false, false⟩]
    activeSource := some 1, nextStartTime := 161 / 10
    chunkStartTime := 61 / 10, chunkStartOffset := 0, chunkPlaybackRate := 1
    resumeOffset := 0, sessionId := 3, selectedVoice := 0, speed := 1
    processing := [1]
    loops := [(⟨3, 0, 0⟩, .awaitEnd 0 1)]
    prefetches := [⟨0, 0⟩, ⟨1, 0⟩], pendingClicks := [] }

theorem pauseStep1 : step (initState 2 0 1) (.togglePlay 0) = pauseS1 := by
  norm_num [step, handleTogglePlay, playQueue, stopPlayback, spawnPrefetch,
    spawnPrefetchStep, loopGo, synthContinue, bufferEnded, playBufferF,
    iterOffset, cacheGet, stopSource, markEnded, initState, pauseS1,
    List.range, List.range.loop, List.replicate]
  all_goals decide

theorem pauseStep2 : step pauseS1 (.synthDone 0 true 10 0) = pauseS2 := by
  norm_num [step, synthContinue, loopGo, spawnPrefetch, spawnPrefetchStep,
    playBufferF, iterOffset, cacheGet, stopSource, markEnded, stopPlayback,
    pauseS1, pauseS2, List.range, List.range.loop]

theorem pauseStep3 : step pauseS2 (.togglePlay 5) = pauseS3 := by
  norm_num [step, handleTogglePlay, stopPlayback, pauseResumeOffset,
    stopSource, cacheGet, pauseS2, pauseS3]

theorem pauseStep4 : step pauseS3 (.bufEnd 0 5) = pauseS4 := by
  norm_num [step, bufferEnded, loopGo, spawnPrefetch, spawnPrefetchStep,
    playBufferF, iterOffset, cacheGet, stopSource, markEnded, pauseS3,
    pauseS4, List.range, List.range.loop]

theorem pauseStep5 : step pauseS4 (.togglePlay 6) = pauseS5 := by
  norm_num [step, handleTogglePlay, playQueue, stopPlayback, spawnPrefetch,
    spawnPrefetchStep, loopGo, synthContinue, bufferEnded, playBufferF,
    iterOffset, cacheGet, stopSource, markEnded, pauseS4, pauseS5,
    List.range, List.range.loop]
  all_goals decide

/-! ### A concrete run: two cached chunks played back to back

Same start as the pause run, but the prefetch of chunk 1 completes at time
0 and chunk 0 plays to its natural end at time 51/5, so the loop starts
chunk 1 directly from the cache. -/

def gapT3 : AppState :=
  { status := .playing, currentChunkIndex := 0, errorAt := none
    numChunks := 2
    audioBuffers := [some ⟨0, 0, 10⟩, some ⟨1, 0, 10⟩]
    sources := [⟨⟨0, 0, 10⟩, 1 / 10, 0, 1, false, false, false⟩]
    activeSource := some 0, nextStartTime := 101 / 10
    chunkStartTime := 1 / 10, chunkStartOffset := 0, chunkPlaybackRate := 1
    resumeOffset := 0, sessionId := 1, selectedVoice := 0, speed := 1
    processing := []
    loops := [(⟨1, 0, 0⟩, .awaitEnd 0 0)]
    prefetches := [⟨0, 0⟩], pendingClicks := [] }

def gapT4 : AppState :=
  { status := .playing, currentChunkIndex := 1, errorAt := none
    numChunks := 2
    audioBuffers := [some ⟨0, 0, 10⟩, some ⟨1, 0, 10⟩]
    sources := [⟨⟨0, 0, 10⟩, 1 / 10, 0, 1, true, false, true⟩,
                ⟨⟨1, 0, 10⟩, 51 / 5, 0, 1, false, false, false⟩]
    activeSource := some 1, nextStartTime := 101 / 5
    chunkStartTime := 51 / 5, chunkStartOffset := 0, chunkPlaybackRate := 1
    resumeOffset := 0, sessionId := 1, selectedVoice := 0, speed := 1
    processing := []
    loops := [(⟨1, 0, 0⟩, .awaitEnd 1 1)]
    prefetches := [⟨0, 0⟩], pendingClicks := [] }

theorem gapStep3 : step pauseS2 (.prefetchDone 1 true 10) = gapT3 := by
  norm_num [step, prefetchFinish, cacheGet, pauseS2, gapT3, List.eraseIdx,
    List.filter]

theorem gapStep4 : step gapT3 (.bufEnd 0 (51 / 5)) = gapT4 := by
  norm_num [step, bufferEnded, loopGo, spawnPrefetch, spawnPrefetchStep,
    playBufferF, iterOffset, cacheGet, stopSource, markEnded, gapT3, gapT4,
    List.range, List.range.loop]

theorem pauseRun3 :
    runEvents (initState 2 0 1)
        [.togglePlay 0, .synthDone 0 true 10 0, .togglePlay 5] = pauseS3 := by
  simp only [runEvents, List.foldl, pauseStep1, pauseStep2, pauseStep3]

/-- C2: the code does not fence every continuation.  In the run below the
user pauses at time 5 while chunk 0 (the first chunk of the loop) sounds:
stopPlayback stores resume offset 49/10 and bumps the session id to 2.
The buffer-end continuation of the superseded loop (captured session id 1)
then runs line 357 of src/App.tsx and resets the stored resume offset to 0
before its session check, a state mutation performed by a continuation
whose captured generation no longer matches the live one. -/
theorem staleContinuation_mutates_state :
    runEvents (initState 2 0 1)
        [.togglePlay 0, .synthDone 0 true 10 0, .togglePlay 5] = pauseS3
    ∧ pauseS3.resumeOffset = 49 / 10
    ∧ pauseS3.sessionId = 2
    ∧ pauseS3.loops.get? 0 = some (⟨1, 0, 0⟩, .awaitEnd 0 0)
    ∧ step pauseS3 (.bufEnd 0 5) = pauseS4
    ∧ pauseS4.resumeOffset = 0
    ∧ pauseS4.status = .paused :=
  ⟨pauseRun3, rfl, rfl, rfl, pauseStep4, rfl, rfl⟩

/-- C3: pause itself stores the offset the claim describes (the chunk
started at offset 0 at time 1/10, rate 1, paused at time 5, so 49/10,
clamped to [0, 10]) and retains currentIndex 0, but the stale loop
continuation then zeroes the stored offset (see
`staleContinuation_mutates_state`), so the subsequent resume at time 6
runs play(0, 0) and starts chunk 0 at offset 0, not at the recorded
offset 49/10. -/
theorem pause_resume_restarts_chunk :
    runEvents (initState 2 0 1)
        [.togglePlay 0, .synthDone 0 true 10 0, .togglePlay 5] = pauseS3
    ∧ pauseS3.resumeOffset = 49 / 10
    ∧ pauseS3.status = .paused
    ∧ pauseS3.currentChunkIndex = 0
    ∧ runEvents (initState 2 0 1)
        [.togglePlay 0, .synthDone 0 true 10 0, .togglePlay 5,
         .bufEnd 0 5, .togglePlay 6] = pauseS5
    ∧ pauseS5.sources.get? 1
        = some ⟨⟨0, 0, 10⟩, 61 / 10, 0, 1, false, false, false⟩
    ∧ (49 / 10 : ℚ) ≠ 0 := by
  refine ⟨pauseRun3, rfl, rfl, rfl, ?_, rfl, by norm_num⟩
  simp only [runEvents, List.foldl, pauseStep1, pauseStep2, pauseStep3,
    pauseStep4, pauseStep5]

/-- C6 counterexample: at the transition from chunk 0 to chunk 1 the
playBuffer path stops the previous source (line 391 of src/App.tsx) but
does not disconnect it; after the new source has started, the record of
the previous source shows stopped = true and disconnected = false, so the
operation that started a new output source did not disconnect the
previously active one as the claim states. -/
theorem start_without_disconnect_counterexample :
    runEvents (initState 2 0 1)
        [.togglePlay 0, .synthDone 0 true 10 0, .prefetchDone 1 true 10,
         .bufEnd 0 (51 / 5)] = gapT4
    ∧ gapT4.sources.get? 0
        = some ⟨⟨0, 0, 10⟩, 1 / 10, 0, 1, true, false, true⟩
    ∧ gapT4.sources.get? 1
        = some ⟨⟨1, 0, 10⟩, 51 / 5, 0, 1, false, false, false⟩ := by
  refine ⟨?_, rfl, rfl⟩
  simp only [runEvents, List.foldl, pauseStep1, pauseStep2, gapStep3,
    gapStep4]

/-! ### Field behavior of the engine helpers -/

theorem stopPlayback_spec (p : Bool) (now : ℚ) (s : AppState) :
    (stopPlayback p now s).audioBuffers = s.audioBuffers
    ∧ (stopPlayback p now s).selectedVoice = s.selectedVoice
    ∧ (stopPlayback p now s).numChunks = s.numChunks
    ∧ (stopPlayback p now s).errorAt = s.errorAt
    ∧ (stopPlayback p now s).loops = s.loops
    ∧ (stopPlayback p now s).prefetches = s.prefetches
    ∧ (stopPlayback p now s).processing = s.processing
    ∧ (stopPlayback p now s).sessionId = s.sessionId + 1
    ∧ (stopPlayback p now s).activeSource = none
    ∧ (stopPlayback p now s).sources.length = s.sources.length
    ∧ (stopPlayback p now s).status = (if p then Status.paused else .idle)
    ∧ (stopPlayback p now s).currentChunkIndex
        = (if p then s.currentChunkIndex else -1)
    ∧ (p = false → (stopPlayback p now s).resumeOffset = 0
        ∧ (stopPlayback p now s).chunkStartOffset = 0
        ∧ (stopPlayback p now s).chunkStartTime = 0
        ∧ (stopPlayback p now s).nextStartTime = 0) := by
  unfold stopPlayback
  cases p <;>
    cases ha : s.activeSource <;>
      simp [ha, stopSource_length]

/-- C10: starting playback at an index at or beyond the end of the chunk
sequence performs a clean full stop: status Idle, currentIndex -1, resume
offset and timing cursor reset to 0, no loop task or prefetch spawned, no
in-flight marker added, no source scheduled, and the generation bumped. -/
theorem playQueue_past_end (s : AppState) (idx : ℕ) (off now : ℚ)
    (h : s.numChunks ≤ idx) :
    (playQueue idx off now s).status = .idle
    ∧ (playQueue idx off now s).currentChunkIndex = -1
    ∧ (playQueue idx off now s).resumeOffset = 0
    ∧ (playQueue idx off now s).nextStartTime = 0
    ∧ (playQueue idx off now s).chunkStartOffset = 0
    ∧ (playQueue idx off now s).chunkStartTime = 0
    ∧ (playQueue idx off now s).loops = s.loops
    ∧ (playQueue idx off now s).prefetches = s.prefetches
    ∧ (playQueue idx off now s).processing = s.processing
    ∧ (playQueue idx off now s).sources.length = s.sources.length
    ∧ (playQueue idx off now s).audioBuffers = s.audioBuffers
    ∧ (playQueue idx off now s).sessionId = s.sessionId + 1 := by
  have hpq : playQueue idx off now s = stopPlayback false now s := by
    unfold playQueue
    rw [if_pos h]
  rw [hpq]
  obtain ⟨hab, _, _, _, hl, hpf, hpr, hsid, _, hsrc, hst, hci, hfalse⟩ :=
    stopPlayback_spec false now s
  obtain ⟨hro, hco, hct, hns⟩ := hfalse rfl
  exact ⟨by simpa using hst, by simpa using hci, hro, hns, hco, hct,
    hl, hpf, hpr, hsrc, hab, hsid⟩

theorem playQueue_past_end_witness :
    (initState 2 0 1).numChunks ≤ 5
    ∧ (playQueue 5 0 0 (initState 2 0 1)).status = .idle
    ∧ (playQueue 5 0 0 (initState 2 0 1)).currentChunkIndex = -1
    ∧ (playQueue 5 0 0 (initState 2 0 1)).resumeOffset = 0
    ∧ (playQueue 5 0 0 (initState 2 0 1)).loops = (initState 2 0 1).loops :=
  have h := playQueue_past_end (initState 2 0 1) 5 0 0
    (by norm_num [initState])
  ⟨by norm_num [initState], h.1, h.2.1, h.2.2.1, h.2.2.2.2.2.2.1⟩

/-- C4: a synthesis or decode failure for the chunk at the active cursor
while the loop is still the current generation reports the failing
paragraph (index i as paragraph i + 1), pauses with currentIndex still i,
removes the loop task without scheduling anything or touching the cache
(no advance past the failing chunk); a failure of a background prefetch
only removes the task and its in-flight marker: status, currentIndex, the
reported error and the cache (in particular the absence of that index) are
untouched.  In the embedding a decode failure enters the same catch block
as a synthesis failure, so both are covered by the failing completion. -/
theorem synthesis_failure_spec (s s2 : AppState) (k i v k2 : ℕ)
    (t : LoopTask) (pf : PrefetchTask) (dur dur2 now : ℚ)
    (hk : s.loops.get? k = some (t, .awaitSynth i v))
    (hsid : t.sid = s.sessionId)
    (hcur : s.currentChunkIndex = (i : ℤ))
    (hk2 : s2.prefetches.get? k2 = some pf) :
    (step s (.synthDone k false dur now)).errorAt = some (i + 1)
    ∧ (step s (.synthDone k false dur now)).status = .paused
    ∧ (step s (.synthDone k false dur now)).currentChunkIndex = (i : ℤ)
    ∧ (step s (.synthDone k false dur now)).loops = s.loops.eraseIdx k
    ∧ (step s (.synthDone k false dur now)).sources.length
        = s.sources.length
    ∧ (step s (.synthDone k false dur now)).audioBuffers = s.audioBuffers
    ∧ (step s2 (.prefetchDone k2 false dur2)).status = s2.status
    ∧ (step s2 (.prefetchDone k2 false dur2)).currentChunkIndex
        = s2.currentChunkIndex
    ∧ (step s2 (.prefetchDone k2 false dur2)).errorAt = s2.errorAt
    ∧ (step s2 (.prefetchDone k2 false dur2)).audioBuffers
        = s2.audioBuffers
    ∧ (step s2 (.prefetchDone k2 false dur2)).prefetches
        = s2.prefetches.eraseIdx k2
    ∧ (step s2 (.prefetchDone k2 false dur2)).processing
        = s2.processing.filter (fun j => j ≠ pf.idx) := by
  have h1 : step s (.synthDone k false dur now)
      = stopPlayback true now
          { s with loops := s.loops.eraseIdx k, errorAt := some (i + 1) } := by
    simp only [step, hk]
    unfold synthContinue
    simp only [Bool.false_eq_true, if_false]
    rw [if_pos hsid.symm]
  obtain ⟨hab, _, _, he, hl, _, _, _, _, hsrc, hst, hci, _⟩ :=
    stopPlayback_spec true now
      { s with loops := s.loops.eraseIdx k, errorAt := some (i + 1) }
  have h2 : ∀ goal : AppState → Prop,
      goal (stopPlayback true now
        { s with loops := s.loops.eraseIdx k, errorAt := some (i + 1) }) →
      goal (step s (.synthDone k false dur now)) := by
    intro goal hg
    rw [h1]
    exact hg
  refine ⟨?_, ?_, ?_, ?_, ?_, ?_, ?_, ?_, ?_, ?_, ?_, ?_⟩
  · exact h2 (fun u => u.errorAt = some (i + 1)) (by simpa using he)
  · exact h2 (fun u => u.status = .paused) (by simpa using hst)
  · exact h2 (fun u => u.currentChunkIndex = (i : ℤ)) (by simpa [hcur] using hci)
  · exact h2 (fun u => u.loops = s.loops.eraseIdx k) (by simpa using hl)
  · exact h2 (fun u => u.sources.length = s.sources.length)
      (by simpa using hsrc)
  · exact h2 (fun u => u.audioBuffers = s.audioBuffers) (by simpa using hab)
  all_goals simp only [step, prefetchFinish, hk2, Bool.false_eq_true,
    if_false]

theorem synthesis_failure_spec_witness :
    (step pauseS1 (.synthDone 0 false 3 7)).status = .paused
    ∧ (step pauseS1 (.synthDone 0 false 3 7)).errorAt = some 1
    ∧ (step pauseS1 (.prefetchDone 0 false 3)).status = pauseS1.status
    ∧ (step pauseS1 (.prefetchDone 0 false 3)).audioBuffers
        = pauseS1.audioBuffers :=
  have h := synthesis_failure_spec pauseS1 pauseS1 0 0 0 0 ⟨1, 0, 0⟩ ⟨0, 0⟩
    3 3 7 rfl rfl rfl rfl
  ⟨h.2.1, h.1, h.2.2.2.2.2.2.1, h.2.2.2.2.2.2.2.2.2.1⟩

/-! ### Voice and single-source invariants -/

/-- Every cached buffer was synthesized under the currently selected
voice. -/
def CacheVoiceOK (s : AppState) : Prop :=
  ∀ i b, cacheGet s i = some b → b.voice = s.selectedVoice

/-- The buffer of the active source was synthesized under the currently
selected voice. -/
def ActiveVoiceOK (s : AppState) : Prop :=
  ∀ j r, s.activeSource = some j → s.sources.get? j = some r →
    r.buf.voice = s.selectedVoice

/-- Every source that is neither stopped nor ended is the active one. -/
def LiveIsActive (s : AppState) : Prop :=
  ∀ j r, s.sources.get? j = some r → r.stopped = false → r.ended = false →
    s.activeSource = some j

def EngineInv (s : AppState) : Prop :=
  CacheVoiceOK s ∧ ActiveVoiceOK s ∧ LiveIsActive s

theorem cacheGet_congr (s s' : AppState)
    (h : s'.audioBuffers = s.audioBuffers) (i : ℕ) :
    cacheGet s' i = cacheGet s i := by
  unfold cacheGet
  rw [h]

theorem stopPlayback_sources_spec (p : Bool) (now : ℚ) (s : AppState)
    (j' : ℕ) (r' : SourceRec)
    (h : (stopPlayback p now s).sources.get? j' = some r') :
    ∃ r0, s.sources.get? j' = some r0 ∧ r'.buf = r0.buf
      ∧ r'.ended = r0.ended
      ∧ (r'.stopped = false → r0.stopped = false) := by
  unfold stopPlayback at h
  cases p <;> cases ha : s.activeSource <;>
    simp only [ha] at h <;>
    simp only [Bool.false_eq_true, Bool.true_eq_false, if_true, if_false,
      ite_true, ite_false] at h
  case false.none =>
    exact ⟨r', h, rfl, rfl, fun hs => hs⟩
  case false.some j =>
    exact stopSource_get?_spec j true s.sources j' r' h |>.imp
      (fun r0 hr => ⟨hr.1, hr.2.1, hr.2.2.1, fun hs => (hr.2.2.2 hs).1⟩)
  case true.none =>
    exact ⟨r', h, rfl, rfl, fun hs => hs⟩
  case true.some j =>
    exact stopSource_get?_spec j true s.sources j' r' h |>.imp
      (fun r0 hr => ⟨hr.1, hr.2.1, hr.2.2.1, fun hs => (hr.2.2.2 hs).1⟩)

theorem stopPlayback_live (p : Bool) (now : ℚ) (s : AppState)
    (hL : LiveIsActive s) (j : ℕ) (r : SourceRec)
    (hj : (stopPlayback p now s).sources.get? j = some r)
    (hs : r.stopped = false) (he : r.ended = false) : False := by
  unfold stopPlayback at hj
  cases p <;> cases ha : s.activeSource <;>
    simp only [ha] at hj <;>
    simp only [Bool.false_eq_true, Bool.true_eq_false, if_true, if_false,
      ite_true, ite_false] at hj
  case false.none =>
    have := hL j r hj hs he
    rw [ha] at this
    cases this
  case true.none =>
    have := hL j r hj hs he
    rw [ha] at this
    cases this
  case false.some j0 =>
    obtain ⟨r1, hr1, _, hend1, hstop1⟩ :=
      stopSource_get?_spec j0 true s.sources j r hj
    obtain ⟨hs1, hne⟩ := hstop1 hs
    have := hL j r1 hr1 hs1 (by rw [← hend1]; exact he)
    rw [ha] at this
    cases this
    exact hne rfl
  case true.some j0 =>
    obtain ⟨r1, hr1, _, hend1, hstop1⟩ :=
      stopSource_get?_spec j0 true s.sources j r hj
    obtain ⟨hs1, hne⟩ := hstop1 hs
    have := hL j r1 hr1 hs1 (by rw [← hend1]; exact he)
    rw [ha] at this
    cases this
    exact hne rfl

theorem stopPlayback_inv (p : Bool) (now : ℚ) (s : AppState)
    (hinv : EngineInv s) : EngineInv (stopPlayback p now s) := by
  obtain ⟨hc, hA, hL⟩ := hinv
  obtain ⟨hab, hv, _, _, _, _, _, _, hact, _, _, _, _⟩ :=
    stopPlayback_spec p now s
  refine ⟨?_, ?_, ?_⟩
  · intro i b hb
    rw [cacheGet_congr s (stopPlayback p now s) hab] at hb
    rw [hv]
    exact hc i b hb
  · intro j r hj
    rw [hact] at hj
    cases hj
  · intro j r hj hs he
    exact (stopPlayback_live p now s hL j r hj hs he).elim

theorem inv_of_fields (s s' : AppState)
    (hab : s'.audioBuffers = s.audioBuffers)
    (hv : s'.selectedVoice = s.selectedVoice)
    (hsrc : s'.sources = s.sources)
    (hact : s'.activeSource = s.activeSource)
    (hinv : EngineInv s) : EngineInv s' := by
  obtain ⟨hc, hA, hL⟩ := hinv
  refine ⟨?_, ?_, ?_⟩
  · intro i b hb
    rw [cacheGet_congr s s' hab] at hb
    rw [hv]
    exact hc i b hb
  · intro j r hj hr
    rw [hact] at hj
    rw [hsrc] at hr
    rw [hv]
    exact hA j r hj hr
  · intro j r hj hs he
    rw [hsrc] at hj
    rw [hact]
    exact hL j r hj hs he

theorem spawnPrefetchStep_fields (start : ℕ) (t : AppState) (k : ℕ) :
    (spawnPrefetchStep start t k).audioBuffers = t.audioBuffers
    ∧ (spawnPrefetchStep start t k).sources = t.sources
    ∧ (spawnPrefetchStep start t k).activeSource = t.activeSource
    ∧ (spawnPrefetchStep start t k).selectedVoice = t.selectedVoice
    ∧ (spawnPrefetchStep start t k).sessionId = t.sessionId
    ∧ (spawnPrefetchStep start t k).numChunks = t.numChunks
    ∧ (spawnPrefetchStep start t k).loops = t.loops := by
  unfold spawnPrefetchStep
  dsimp only
  split_ifs <;> exact ⟨rfl, rfl, rfl, rfl, rfl, rfl, rfl⟩

theorem foldl_spawnPrefetchStep_fields (start : ℕ) :
    ∀ (l : List ℕ) (s : AppState),
      (l.foldl (spawnPrefetchStep start) s).audioBuffers = s.audioBuffers
      ∧ (l.foldl (spawnPrefetchStep start) s).sources = s.sources
      ∧ (l.foldl (spawnPrefetchStep start) s).activeSource = s.activeSource
      ∧ (l.foldl (spawnPrefetchStep start) s).selectedVoice = s.selectedVoice
      ∧ (l.foldl (spawnPrefetchStep start) s).sessionId = s.sessionId
      ∧ (l.foldl (spawnPrefetchStep start) s).numChunks = s.numChunks
      ∧ (l.foldl (spawnPrefetchStep start) s).loops = s.loops := by
  intro l
  induction l with
  | nil =>
      intro s
      exact ⟨rfl, rfl, rfl, rfl, rfl, rfl, rfl⟩
  | cons x xs ih =>
      intro s
      obtain ⟨h1, h2, h3, h4, h5, h6, h7⟩ := spawnPrefetchStep_fields start s x
      obtain ⟨g1, g2, g3, g4, g5, g6, g7⟩ := ih (spawnPrefetchStep start s x)
      exact ⟨g1.trans h1, g2.trans h2, g3.trans h3, g4.trans h4,
        g5.trans h5, g6.trans h6, g7.trans h7⟩

theorem spawnPrefetch_fields (start w : ℕ) (s : AppState) :
    (spawnPrefetch start w s).audioBuffers = s.audioBuffers
    ∧ (spawnPrefetch start w s).sources = s.sources
    ∧ (spawnPrefetch start w s).activeSource = s.activeSource
    ∧ (spawnPrefetch start w s).selectedVoice = s.selectedVoice
    ∧ (spawnPrefetch start w s).sessionId = s.sessionId
    ∧ (spawnPrefetch start w s).numChunks = s.numChunks
    ∧ (spawnPrefetch start w s).loops = s.loops :=
  foldl_spawnPrefetchStep_fields start (List.range w) s

theorem spawnPrefetch_inv (start w : ℕ) (s : AppState)
    (hinv : EngineInv s) : EngineInv (spawnPrefetch start w s) := by
  obtain ⟨h1, h2, h3, h4, _, _, _⟩ := spawnPrefetch_fields start w s
  exact inv_of_fields s _ h1 h4 h2 h3 hinv

theorem playBufferF_fields (sid : ℕ) (off : ℚ) (buf : Buffer) (now : ℚ)
    (s : AppState) :
    (playBufferF sid off buf now s).1.audioBuffers = s.audioBuffers
    ∧ (playBufferF sid off buf now s).1.selectedVoice = s.selectedVoice
    ∧ (playBufferF sid off buf now s).1.sessionId = s.sessionId
    ∧ (playBufferF sid off buf now s).1.numChunks = s.numChunks
    ∧ (playBufferF sid off buf now s).1.loops = s.loops
    ∧ (playBufferF sid off buf now s).1.prefetches = s.prefetches
    ∧ (playBufferF sid off buf now s).1.processing = s.processing
    ∧ (playBufferF sid off buf now s).1.status = s.status
    ∧ (playBufferF sid off buf now s).1.currentChunkIndex
        = s.currentChunkIndex
    ∧ (playBufferF sid off buf now s).1.errorAt = s.errorAt := by
  unfold playBufferF
  by_cases hsid : s.sessionId ≠ sid
  · rw [if_pos hsid]
    exact ⟨rfl, rfl, rfl, rfl, rfl, rfl, rfl, rfl, rfl, rfl⟩
  · rw [if_neg hsid]
    cases ha : s.activeSource <;>
      simp only [ha] <;>
        split_ifs <;>
          exact ⟨rfl, rfl, rfl, rfl, rfl, rfl, rfl, rfl, rfl, rfl⟩

theorem playBufferF_inv (sid : ℕ) (off : ℚ) (buf : Buffer) (now : ℚ)
    (s : AppState) (hbv : buf.voice = s.selectedVoice)
    (hinv : EngineInv s) : EngineInv (playBufferF sid off buf now s).1 := by
  obtain ⟨hc, hA, hL⟩ := hinv
  unfold playBufferF
  by_cases hsid : s.sessionId ≠ sid
  · rw [if_pos hsid]
    exact ⟨hc, hA, hL⟩
  · rw [if_neg hsid]
    cases ha : s.activeSource with
    | none =>
        simp only [ha]
        split_ifs <;>
          first
            | exact inv_of_fields s _ rfl rfl rfl (by rw [ha]) ⟨hc, hA, hL⟩
            | · refine ⟨?_, ?_, ?_⟩
                · intro i b hb
                  exact hc i b hb
                · intro j r hj hr
                  cases hj
                  rw [get?_append_length] at hr
                  cases hr
                  exact hbv
                · intro j r hj hs he
                  rcases get?_append_cases s.sources _ j r hj
                    with hold | ⟨hjl, hre⟩
                  · have := hL j r hold hs he
                    rw [ha] at this
                    cases this
                  · subst hjl
                    rfl
    | some j0 =>
        simp only [ha]
        split_ifs <;>
          first
            | · refine ⟨?_, ?_, ?_⟩
                · intro i b hb
                  exact hc i b hb
                · intro j r hj hr
                  cases hj
                  rw [get?_append_length] at hr
                  cases hr
                  exact hbv
                · intro j r hj hs he
                  rcases get?_append_cases (stopSource j0 false s.sources) _
                      j r hj with hold | ⟨hjl, hre⟩
                  · obtain ⟨r1, hr1, _, hend1, hstop1⟩ :=
                      stopSource_get?_spec j0 false s.sources j r hold
                    obtain ⟨hs1, hne⟩ := hstop1 hs
                    have := hL j r1 hr1 hs1 (by rw [← hend1]; exact he)
                    rw [ha] at this
                    cases this
                    exact (hne rfl).elim
                  · subst hjl
                    rfl
            | · refine ⟨?_, ?_, ?_⟩
                · intro i b hb
                  exact hc i b hb
                · intro j r hj _
                  cases hj
                · intro j r hj hs he
                  obtain ⟨r1, hr1, _, hend1, hstop1⟩ :=
                    stopSource_get?_spec j0 false s.sources j r hj
                  obtain ⟨hs1, hne⟩ := hstop1 hs
                  have := hL j r1 hr1 hs1 (by rw [← hend1]; exact he)
                  rw [ha] at this
                  cases this
                  exact (hne rfl).elim

theorem clobberInv (c : Prop) [Decidable c] (s3 : AppState) :
    ((if c then { s3 with resumeOffset := 0 } else s3).audioBuffers
        = s3.audioBuffers)
    ∧ ((if c then { s3 with resumeOffset := 0 } else s3).selectedVoice
        = s3.selectedVoice)
    ∧ ((if c then { s3 with resumeOffset := 0 } else s3).sessionId
        = s3.sessionId)
    ∧ (EngineInv s3 →
        EngineInv (if c then { s3 with resumeOffset := 0 } else s3)) := by
  split_ifs
  · exact ⟨rfl, rfl, rfl, fun h => inv_of_fields s3 _ rfl rfl rfl rfl h⟩
  · exact ⟨rfl, rfl, rfl, fun h => h⟩

theorem loopGo_spec : ∀ (fuel : ℕ) (t : LoopTask) (i : ℕ) (now : ℚ)
    (s : AppState),
    ((loopGo fuel t i now s).audioBuffers = s.audioBuffers
      ∧ (loopGo fuel t i now s).selectedVoice = s.selectedVoice
      ∧ (loopGo fuel t i now s).sessionId = s.sessionId)
    ∧ (EngineInv s → EngineInv (loopGo fuel t i now s)) := by
  intro fuel
  induction fuel with
  | zero =>
      intro t i now s
      exact ⟨⟨rfl, rfl, rfl⟩, fun h => h⟩
  | succ n ih =>
      intro t i now s
      rw [loopGo]
      by_cases h1 : s.numChunks ≤ i
      · rw [if_pos h1]
        by_cases h2 : s.sessionId = t.sid
        · rw [if_pos h2]
          exact ⟨⟨rfl, rfl, rfl⟩,
            fun hv => inv_of_fields s _ rfl rfl rfl rfl hv⟩
        · rw [if_neg h2]
          exact ⟨⟨rfl, rfl, rfl⟩, fun h => h⟩
      · rw [if_neg h1]
        by_cases h2 : s.sessionId ≠ t.sid
        · rw [if_pos h2]
          exact ⟨⟨rfl, rfl, rfl⟩, fun h => h⟩
        · rw [if_neg h2]
          obtain ⟨sp1, sp2, sp3, sp4, sp5, sp6, sp7⟩ :=
            spawnPrefetch_fields (i + 1) 3
              { s with currentChunkIndex := (i : ℤ) }
          cases hcache : cacheGet (spawnPrefetch (i + 1) 3
              { s with currentChunkIndex := (i : ℤ) }) i with
          | none =>
              simp only [hcache]
              refine ⟨⟨sp1, sp4, sp5⟩, ?_⟩
              intro hv
              have hinv2 := spawnPrefetch_inv (i + 1) 3 _
                (inv_of_fields s { s with currentChunkIndex := (i : ℤ) }
                  rfl rfl rfl rfl hv)
              exact inv_of_fields _ _ rfl rfl rfl rfl hinv2
          | some buf =>
              simp only [hcache]
              rcases hpb : playBufferF t.sid (iterOffset t i) buf now
                  (spawnPrefetch (i + 1) 3
                    { s with currentChunkIndex := (i : ℤ) }) with ⟨s3, out⟩
              have hf := playBufferF_fields t.sid (iterOffset t i) buf now
                (spawnPrefetch (i + 1) 3
                  { s with currentChunkIndex := (i : ℤ) })
              rw [hpb] at hf
              have hinv3 : EngineInv s → EngineInv s3 := by
                intro hv
                have hinv2 := spawnPrefetch_inv (i + 1) 3 _
                  (inv_of_fields s { s with currentChunkIndex := (i : ℤ) }
                    rfl rfl rfl rfl hv)
                have hbv := hinv2.1 i buf hcache
                have := playBufferF_inv t.sid (iterOffset t i) buf now
                  (spawnPrefetch (i + 1) 3
                    { s with currentChunkIndex := (i : ℤ) }) hbv hinv2
                rw [hpb] at this
                exact this
              cases out with
              | started j =>
                  simp only [hpb]
                  refine ⟨⟨hf.1.trans sp1, hf.2.1.trans sp4,
                    hf.2.2.1.trans sp5⟩, ?_⟩
                  intro hv
                  exact inv_of_fields s3 _ rfl rfl rfl rfl (hinv3 hv)
              | zero =>
                  simp only [hpb]
                  obtain ⟨c1, c2, c3, cInv⟩ :=
                    clobberInv (i = t.startIndex) s3
                  obtain ⟨⟨g1, g2, g3⟩, gInv⟩ := ih t (i + 1) now
                    (if i = t.startIndex then { s3 with resumeOffset := 0 }
                     else s3)
                  refine ⟨⟨g1.trans (c1.trans (hf.1.trans sp1)),
                    g2.trans (c2.trans (hf.2.1.trans sp4)),
                    g3.trans (c3.trans (hf.2.2.1.trans sp5))⟩, ?_⟩
                  intro hv
                  exact gInv (cInv (hinv3 hv))
              | stale =>
                  simp only [hpb]
                  obtain ⟨c1, c2, c3, cInv⟩ :=
                    clobberInv (i = t.startIndex) s3
                  obtain ⟨⟨g1, g2, g3⟩, gInv⟩ := ih t (i + 1) now
                    (if i = t.startIndex then { s3 with resumeOffset := 0 }
                     else s3)
                  refine ⟨⟨g1.trans (c1.trans (hf.1.trans sp1)),
                    g2.trans (c2.trans (hf.2.1.trans sp4)),
                    g3.trans (c3.trans (hf.2.2.1.trans sp5))⟩, ?_⟩
                  intro hv
                  exact gInv (cInv (hinv3 hv))

theorem synthContinue_inv (t : LoopTask) (i v : ℕ) (ok : Bool) (dur now : ℚ)
    (s : AppState) (hinv : EngineInv s) :
    EngineInv (synthContinue t i v ok dur now s) := by
  obtain ⟨hc, hA, hL⟩ := hinv
  unfold synthContinue
  cases ok with
  | false =>
      simp only [Bool.false_eq_true, if_false]
      by_cases h2 : s.sessionId = t.sid
      · rw [if_pos h2]
        exact stopPlayback_inv true now _
          (inv_of_fields s _ rfl rfl rfl rfl ⟨hc, hA, hL⟩)
      · rw [if_neg h2]
        exact ⟨hc, hA, hL⟩
  | true =>
      rw [if_pos rfl]
      by_cases h2 : s.sessionId ≠ t.sid
      · rw [if_pos h2]
        exact inv_of_fields s _ rfl rfl rfl rfl ⟨hc, hA, hL⟩
      · rw [if_neg h2]
        by_cases h3 : v ≠ s.selectedVoice
        · rw [if_pos h3]
          exact inv_of_fields s _ rfl rfl rfl rfl ⟨hc, hA, hL⟩
        · rw [if_neg h3]
          push_neg at h3
          rw [if_neg h2]
          have hinvStore : EngineInv
              { s with
                processing := s.processing.filter (fun j => j ≠ i),
                audioBuffers :=
                  s.audioBuffers.set i (some ⟨i, v, dur⟩) } := by
            refine ⟨?_, ?_, ?_⟩
            · intro i' b hb
              unfold cacheGet at hb
              cases hx : (s.audioBuffers.set i (some ⟨i, v, dur⟩)).get? i' with
              | none =>
                  rw [hx] at hb
                  cases hb
              | some x =>
                  rw [hx] at hb
                  rcases get?_set_cases s.audioBuffers i i'
                      (some ⟨i, v, dur⟩) x hx with hold | ⟨hi, hx2⟩
                  · have hcg : cacheGet s i' = some b := by
                      unfold cacheGet
                      rw [hold]
                      exact hb
                    exact hc i' b hcg
                  · subst hx2
                    simp only [Option.getD, Option.some.injEq] at hb
                    subst hb
                    exact h3
            · intro j r hj hr
              exact hA j r hj hr
            · intro j r hj hs he
              exact hL j r hj hs he
          rcases hpb : playBufferF t.sid (iterOffset t i) ⟨i, v, dur⟩ now
              { s with
                processing := s.processing.filter (fun j => j ≠ i),
                audioBuffers :=
                  s.audioBuffers.set i (some ⟨i, v, dur⟩) } with ⟨s3, out⟩
          have hinv3 : EngineInv s3 := by
            have hres := playBufferF_inv t.sid (iterOffset t i) ⟨i, v, dur⟩
              now
              { s with
                processing := s.processing.filter (fun j => j ≠ i),
                audioBuffers := s.audioBuffers.set i (some ⟨i, v, dur⟩) }
              (by exact h3) hinvStore
            rw [hpb] at hres
            exact hres
          cases out with
          | started j =>
              simp only [hpb]
              exact inv_of_fields s3 _ rfl rfl rfl rfl hinv3
          | zero =>
              simp only [hpb]
              exact (loopGo_spec _ t (i + 1) now _).2
                ((clobberInv (i = t.startIndex) s3).2.2.2 hinv3)
          | stale =>
              simp only [hpb]
              exact (loopGo_spec _ t (i + 1) now _).2
                ((clobberInv (i = t.startIndex) s3).2.2.2 hinv3)

theorem bufferEnded_inv (k : ℕ) (now : ℚ) (s : AppState)
    (hinv : EngineInv s) : EngineInv (bufferEnded k now s) := by
  obtain ⟨hc, hA, hL⟩ := hinv
  unfold bufferEnded
  cases hk : s.loops.get? k with
  | none =>
      simp only [hk]
      exact ⟨hc, hA, hL⟩
  | some tp =>
      obtain ⟨t, ph⟩ := tp
      cases ph with
      | awaitSynth i v =>
          simp only [hk]
          exact ⟨hc, hA, hL⟩
      | awaitEnd i j =>
          simp only [hk]
          have hinv1 : EngineInv
              { s with loops := s.loops.eraseIdx k,
                       sources := markEnded j s.sources } := by
            refine ⟨fun i' b hb => hc i' b hb, ?_, ?_⟩
            · intro j' r hj hr
              obtain ⟨r0, hr0, hbuf, _, _⟩ :=
                markEnded_get?_spec j s.sources j' r hr
              rw [hbuf]
              exact hA j' r0 hj hr0
            · intro j' r hj hs he
              obtain ⟨r0, hr0, _, hstop, hend⟩ :=
                markEnded_get?_spec j s.sources j' r hj
              exact hL j' r0 hr0 (by rw [← hstop]; exact hs) (hend he)
          exact (loopGo_spec _ t (i + 1) now _).2
            ((clobberInv (i = t.startIndex) _).2.2.2 hinv1)

theorem prefetchFinish_inv (k : ℕ) (ok : Bool) (dur : ℚ) (s : AppState)
    (hinv : EngineInv s) : EngineInv (prefetchFinish k ok dur s) := by
  obtain ⟨hc, hA, hL⟩ := hinv
  unfold prefetchFinish
  cases hk : s.prefetches.get? k with
  | none =>
      simp only [hk]
      exact ⟨hc, hA, hL⟩
  | some pf =>
      simp only [hk]
      cases ok with
      | false =>
          simp only [Bool.false_eq_true, if_false]
          exact inv_of_fields s _ rfl rfl rfl rfl ⟨hc, hA, hL⟩
      | true =>
          rw [if_pos rfl]
          by_cases h2 : s.selectedVoice ≠ pf.voiceAtStart
          · rw [if_pos h2]
            exact inv_of_fields s _ rfl rfl rfl rfl ⟨hc, hA, hL⟩
          · rw [if_neg h2]
            push_neg at h2
            by_cases h3 : pf.idx < s.audioBuffers.length
            · rw [if_pos h3]
              refine ⟨?_, fun j r hj hr => hA j r hj hr,
                fun j r hj hs he => hL j r hj hs he⟩
              intro i' b hb
              unfold cacheGet at hb
              cases hx : (s.audioBuffers.set pf.idx
                  (some ⟨pf.idx, pf.voiceAtStart, dur⟩)).get? i' with
              | none =>
                  rw [hx] at hb
                  cases hb
              | some x =>
                  rw [hx] at hb
                  rcases get?_set_cases s.audioBuffers pf.idx i' _ x hx
                    with hold | ⟨hi, hx2⟩
                  · exact hc i' b (by unfold cacheGet; rw [hold]; exact hb)
                  · subst hx2
                    simp only [Option.getD, Option.some.injEq] at hb
                    subst hb
                    exact h2.symm
            · rw [if_neg h3]
              exact inv_of_fields s _ rfl rfl rfl rfl ⟨hc, hA, hL⟩

theorem playQueue_inv (idx : ℕ) (off now : ℚ) (s : AppState)
    (hinv : EngineInv s) : EngineInv (playQueue idx off now s) := by
  unfold playQueue
  by_cases h : s.numChunks ≤ idx
  · rw [if_pos h]
    exact stopPlayback_inv false now s hinv
  · rw [if_neg h]
    exact (loopGo_spec _ _ idx now _).2
      (spawnPrefetch_inv idx 3 _ (inv_of_fields s _ rfl rfl rfl rfl hinv))

theorem replicate_none_get? (n i : ℕ) :
    ((List.replicate n (none : Option Buffer)).get? i).getD none = none := by
  induction n generalizing i with
  | zero => rfl
  | succ m ih =>
      cases i with
      | zero => rfl
      | succ i' =>
          simp only [List.replicate, List.get?]
          exact ih i'

theorem handleVoiceChange_inv (v : ℕ) (now : ℚ) (s : AppState)
    (hinv : EngineInv s) : EngineInv (handleVoiceChange v now s) := by
  unfold handleVoiceChange
  obtain ⟨_, _, _, _, _, _, _, _, hact, _, _, _, _⟩ :=
    stopPlayback_spec true now s
  refine ⟨?_, ?_, ?_⟩
  · intro i b hb
    unfold cacheGet at hb
    have hn := replicate_none_get?
      ((stopPlayback true now s).numChunks) i
    rw [hn] at hb
    cases hb
  · intro j r hj hr
    rw [hact] at hj
    cases hj
  · intro j r hj hs he
    exact (stopPlayback_live true now s hinv.2.2 j r hj hs he).elim

theorem handleSpeedChange_inv (r : ℚ) (now : ℚ) (s : AppState)
    (hinv : EngineInv s) : EngineInv (handleSpeedChange r now s) := by
  unfold handleSpeedChange
  cases hb : s.activeSource.bind (fun j => s.sources.get? j) with
  | none =>
      simp only [hb]
      exact inv_of_fields s _ rfl rfl rfl rfl hinv
  | some srcRec =>
      simp only [hb]
      split_ifs <;> exact inv_of_fields s _ rfl rfl rfl rfl hinv

theorem handleTogglePlay_inv (now : ℚ) (s : AppState)
    (hinv : EngineInv s) : EngineInv (handleTogglePlay now s) := by
  unfold handleTogglePlay
  by_cases h : s.status = .playing
  · rw [if_pos h]
    exact stopPlayback_inv true now s hinv
  · rw [if_neg h]
    exact playQueue_inv _ _ now _ (inv_of_fields s _ rfl rfl rfl rfl hinv)

theorem handleParagraphClick_inv (idx : ℕ) (now : ℚ) (s : AppState)
    (hinv : EngineInv s) : EngineInv (handleParagraphClick idx now s) := by
  unfold handleParagraphClick
  exact inv_of_fields _ _ rfl rfl rfl rfl (stopPlayback_inv true now s hinv)

theorem fireClick_inv (now : ℚ) (s : AppState)
    (hinv : EngineInv s) : EngineInv (fireClick now s) := by
  unfold fireClick
  cases hp : s.pendingClicks with
  | nil =>
      simp only [hp]
      exact hinv
  | cons idx rest =>
      simp only [hp]
      exact playQueue_inv idx 0 now _
        (inv_of_fields s _ rfl rfl rfl rfl hinv)

theorem step_inv (s : AppState) (e : Event) (hinv : EngineInv s) :
    EngineInv (step s e) := by
  cases e with
  | togglePlay now => exact handleTogglePlay_inv now s hinv
  | paragraphClick idx now => exact handleParagraphClick_inv idx now s hinv
  | clickTimer now => exact fireClick_inv now s hinv
  | voiceChange v now => exact handleVoiceChange_inv v now s hinv
  | speedChange r now => exact handleSpeedChange_inv r now s hinv
  | synthDone k ok dur now =>
      unfold step
      cases hk : s.loops.get? k with
      | none =>
          simp only [hk]
          exact hinv
      | some tp =>
          obtain ⟨t, ph⟩ := tp
          cases ph with
          | awaitSynth i v =>
              simp only [hk]
              exact synthContinue_inv t i v ok dur now _
                (inv_of_fields s _ rfl rfl rfl rfl hinv)
          | awaitEnd i j =>
              simp only [hk]
              exact hinv
  | bufEnd k now => exact bufferEnded_inv k now s hinv
  | prefetchDone k ok dur => exact prefetchFinish_inv k ok dur s hinv

theorem runEvents_inv : ∀ (evts : List Event) (s : AppState),
    EngineInv s → EngineInv (runEvents s evts) := by
  intro evts
  induction evts with
  | nil =>
      intro s h
      exact h
  | cons e rest ih =>
      intro s h
      exact ih (step s e) (step_inv s e h)

theorem initState_inv (n v : ℕ) (r : ℚ) : EngineInv (initState n v r) := by
  refine ⟨?_, ?_, ?_⟩
  · intro i b hb
    unfold cacheGet at hb
    have hn := replicate_none_get? n i
    rw [show (initState n v r).audioBuffers
        = List.replicate n (none : Option Buffer) from rfl] at hb
    rw [hn] at hb
    cases hb
  · intro j rec hj _
    cases hj
  · intro j rec hj _ _
    cases hj

/-- C5: a completed background prefetch whose captured voice no longer
equals the selected voice is discarded (the cache is unchanged);
changeVoice clears every cached buffer and every in-flight marker and
installs the new voice; and in every reachable state every cached buffer,
and every live (neither stopped nor ended) source, carries the currently
selected voice, so no chunk scheduled after a voice change can play audio
synthesized under the old voice. -/
theorem voice_isolation_spec :
    (∀ (s : AppState) (k : ℕ) (pf : PrefetchTask) (dur : ℚ),
        s.prefetches.get? k = some pf →
        pf.voiceAtStart ≠ s.selectedVoice →
        (step s (.prefetchDone k true dur)).audioBuffers = s.audioBuffers)
    ∧ (∀ (s : AppState) (v : ℕ) (now : ℚ),
        (step s (.voiceChange v now)).audioBuffers
            = List.replicate s.numChunks none
        ∧ (step s (.voiceChange v now)).processing = []
        ∧ (step s (.voiceChange v now)).selectedVoice = v)
    ∧ (∀ (n v : ℕ) (r : ℚ) (evts : List Event) (i : ℕ) (b : Buffer),
        cacheGet (runEvents (initState n v r) evts) i = some b →
        b.voice = (runEvents (initState n v r) evts).selectedVoice)
    ∧ (∀ (n v : ℕ) (r : ℚ) (evts : List Event) (j : ℕ) (sr : SourceRec),
        (runEvents (initState n v r) evts).sources.get? j = some sr →
        sr.stopped = false → sr.ended = false →
        sr.buf.voice = (runEvents (initState n v r) evts).selectedVoice) := by
  refine ⟨?_, ?_, ?_, ?_⟩
  · intro s k pf dur hk hne
    simp only [step, prefetchFinish, hk]
    rw [if_pos trivial, if_pos (Ne.symm hne)]
  · intro s v now
    unfold step handleVoiceChange
    obtain ⟨_, _, hn, _⟩ := stopPlayback_spec true now s
    refine ⟨?_, rfl, rfl⟩
    show List.replicate (stopPlayback true now s).numChunks none
        = List.replicate s.numChunks none
    rw [hn]
  · intro n v r evts i b hb
    exact (runEvents_inv evts _ (initState_inv n v r)).1 i b hb
  · intro n v r evts j sr hj hs he
    have hinv := runEvents_inv evts _ (initState_inv n v r)
    exact hinv.2.1 j sr (hinv.2.2 j sr hj hs he) hj

theorem voice_isolation_spec_witness :
    (step { pauseS1 with selectedVoice := 5 }
        (.prefetchDone 0 true 3)).audioBuffers = [none, none]
    ∧ (⟨0, 0, 10⟩ : Buffer).voice
        = (runEvents (initState 2 0 1)
            [.togglePlay 0, .synthDone 0 true 10 0]).selectedVoice := by
  constructor
  · have h := voice_isolation_spec.1 { pauseS1 with selectedVoice := 5 } 0
      ⟨0, 0⟩ 3 rfl (by decide)
    rw [h]
    rfl
  · have hrun : runEvents (initState 2 0 1)
        [.togglePlay 0, .synthDone 0 true 10 0] = pauseS2 := by
      simp only [runEvents, List.foldl, pauseStep1, pauseStep2]
    exact voice_isolation_spec.2.2.1 2 0 1
      [.togglePlay 0, .synthDone 0 true 10 0] 0 ⟨0, 0, 10⟩
      (by rw [hrun]; rfl)

/-- C6 (amended): in every reachable state at most one output source is
live (started, neither stopped nor ended) and it is the active one, so
every operation that starts a new source has first stopped the previously
active source and cleared the record of it; the stop and pause path
additionally disconnects the previous source, while the start-new-buffer
path of playBuffer stops it without disconnecting (see the
counterexample). -/
theorem single_active_source (n v : ℕ) (r : ℚ) (evts : List Event) :
    (∀ j sr, (runEvents (initState n v r) evts).sources.get? j = some sr →
        sr.stopped = false → sr.ended = false →
        (runEvents (initState n v r) evts).activeSource = some j)
    ∧ (∀ j1 j2 r1 r2,
        (runEvents (initState n v r) evts).sources.get? j1 = some r1 →
        (runEvents (initState n v r) evts).sources.get? j2 = some r2 →
        r1.stopped = false → r1.ended = false →
        r2.stopped = false → r2.ended = false → j1 = j2) := by
  have hinv := runEvents_inv evts _ (initState_inv n v r)
  refine ⟨hinv.2.2, ?_⟩
  intro j1 j2 r1 r2 h1 h2 hs1 he1 hs2 he2
  have e1 := hinv.2.2 j1 r1 h1 hs1 he1
  have e2 := hinv.2.2 j2 r2 h2 hs2 he2
  rw [e1] at e2
  exact Option.some.inj e2

theorem single_active_source_witness :
    (runEvents (initState 2 0 1)
        [.togglePlay 0, .synthDone 0 true 10 0, .prefetchDone 1 true 10,
         .bufEnd 0 (51 / 5)]).activeSource = some 1 := by
  have hrun : runEvents (initState 2 0 1)
      [.togglePlay 0, .synthDone 0 true 10 0, .prefetchDone 1 true 10,
       .bufEnd 0 (51 / 5)] = gapT4 := by
    simp only [runEvents, List.foldl, pauseStep1, pauseStep2, gapStep3,
      gapStep4]
  exact (single_active_source 2 0 1
      [.togglePlay 0, .synthDone 0 true 10 0, .prefetchDone 1 true 10,
       .bufEnd 0 (51 / 5)]).1 1
    ⟨⟨1, 0, 10⟩, 51 / 5, 0, 1, false, false, false⟩
    (by rw [hrun]; rfl) rfl rfl
